import Mathlib

/-!
# Verification of the ppExtender ETL core

Shallow embedding, in Lean 4, of the parts of the ppExtender repository that
the specification's claims are about:

* `src/pipelines/sql_parser.py` — the byte-at-a-time SQL dump scanner
  (`SqlParser.feed`), the value tokenizer (`SqlParser.parse_value`), the mod
  normalizer (`parse_mods_from_data` / `normalize_mods`), and the row-to-batch
  conversion used by `parse_sql_file`.
* `src/pipelines/sql_parser_fast.py` — the regex bulk scanner
  (`parse_sql_file_fast`).
* `src/pipelines/parquet_writer.py` — the sharded columnar writer
  (`ParquetWriter`), modelled at the level of row counts, row-group sizes and
  manifest contents.
* `src/pipelines/duckdb_pipeline.py` — the staging projection and the manifest
  population of `run_full_pipeline`, modelled relationally.
* `src/scripts/lib/parallel_utils.py` — `retry_with_backoff`.

Python strings are modelled as `List Char`; machine integers as `Int`/`Nat`
(none of the claims depend on overflow); floats only ever flow through the
code unchanged, so a float value is represented by the literal it was parsed
from; fallible Python code is modelled with `Except`.  I/O, logging and
timing instrumentation are elided; everything else follows the source line by
line, as noted next to each definition.
-/

namespace PpExt

instance {e a : Type _} [DecidableEq e] [DecidableEq a] : DecidableEq (Except e a) := fun x y =>
  match x, y with
  | .ok u, .ok v =>
    if h : u = v then .isTrue (by rw [h]) else .isFalse (fun hc => h (Except.ok.inj hc))
  | .error u, .error v =>
    if h : u = v then .isTrue (by rw [h]) else .isFalse (fun hc => h (Except.error.inj hc))
  | .ok _, .error _ => .isFalse (fun hc => Except.noConfusion hc)
  | .error _, .ok _ => .isFalse (fun hc => Except.noConfusion hc)

/-! ## Python string primitives -/

/-- Python `str.strip()` whitespace set (ASCII part): space, tab, newline,
carriage return, vertical tab, form feed. -/
def pyIsSpace (c : Char) : Bool :=
  c = ' ' || c = '\t' || c = '\n' || c = '\x0d' || c = '\x0b' || c = '\x0c'

/-- Drop leading characters satisfying `p`. -/
def dropWhileB (p : Char → Bool) : List Char → List Char
  | [] => []
  | c :: cs => if p c then dropWhileB p cs else c :: cs

/-- Python `s.strip()`. -/
def pyStrip (s : List Char) : List Char :=
  ((dropWhileB pyIsSpace s).reverse |> dropWhileB pyIsSpace).reverse

/-- Python `s.strip(chars)` for an explicit character set. -/
def pyStripChars (set : List Char) (s : List Char) : List Char :=
  ((dropWhileB (set.contains ·) s).reverse |> dropWhileB (set.contains ·)).reverse

/-- Python `s.upper()` restricted to ASCII, which is all the source feeds it. -/
def pyUpper (s : List Char) : List Char := s.map Char.toUpper

/-- `needle` occurs at position 0 of `hay`. -/
def isPrefixOfB : List Char → List Char → Bool
  | [], _ => true
  | _ :: _, [] => false
  | a :: as, b :: bs => a = b && isPrefixOfB as bs

/-- Python `needle in hay` (substring containment). -/
def containsSub (needle hay : List Char) : Bool :=
  match hay with
  | [] => isPrefixOfB needle []
  | _ :: rest => isPrefixOfB needle hay || containsSub needle rest

/-- Python `hay.find(needle)`: index of the leftmost occurrence, if any
(Python returns `-1` when absent; we use `Option`). -/
def pyFind (needle hay : List Char) : Option Nat :=
  match hay with
  | [] => if isPrefixOfB needle [] then some 0 else none
  | _ :: rest =>
    if isPrefixOfB needle hay then some 0
    else (pyFind needle rest).map (· + 1)

/-- Python `s.split(sep)` for a single-character separator. -/
def splitOnChar (sep : Char) : List Char → List (List Char)
  | [] => [[]]
  | c :: cs =>
    let rest := splitOnChar sep cs
    if c = sep then [] :: rest
    else
      match rest with
      | [] => [[c]]
      | r :: rs => (c :: r) :: rs

/-- Python `sep.join(parts)` for a single-character separator. -/
def joinWithChar (sep : Char) : List (List Char) → List Char
  | [] => []
  | [x] => x
  | x :: xs => x ++ sep :: joinWithChar sep xs

/-! ## Numeric literal acceptance (Python `int()` / `float()`)

`SqlParser.parse_value` calls `int(value_str)` and `float(value_str)` on
already-stripped input, so only the literal grammars matter.  Python's `int`
grammar is `[sign] digit (["_"] digit)*`; its `float` grammar is
`[sign] (digitpart ["." [digitpart]] | "." digitpart) [exponent]` or the
words `inf`/`infinity`/`nan` case-insensitively, with the same
underscore-between-digits rule in every digit part. -/

def isDigitB (c : Char) : Bool := '0' ≤ c && c ≤ '9'

/-- `digit (["_"] digit)*`: nonempty, underscores strictly between digits. -/
def digitPartAccepts : List Char → Bool
  | [] => false
  | c :: cs => isDigitB c && digitPartRest cs
where
  digitPartRest : List Char → Bool
    | [] => true
    | '_' :: c :: cs => isDigitB c && digitPartRest cs
    | c :: cs => isDigitB c && digitPartRest cs

def dropSign : List Char → List Char
  | '+' :: cs => cs
  | '-' :: cs => cs
  | cs => cs

def isNeg : List Char → Bool
  | '-' :: _ => true
  | _ => false

/-- Python `int(s)` accepts `s` (for `s` already whitespace-stripped). -/
def pyIntAccepts (s : List Char) : Bool :=
  digitPartAccepts (dropSign s)

/-- Numeric value of an accepted integer literal. -/
def pyIntVal (s : List Char) : Int :=
  let mag : Nat :=
    ((dropSign s).filter (· ≠ '_')).foldl (fun acc c => acc * 10 + (c.toNat - '0'.toNat)) 0
  if isNeg s then -(mag : Int) else (mag : Int)

/-- `exponent` suffix of the float grammar: `(e|E) [sign] digitpart`, or empty. -/
def floatExpAccepts : List Char → Bool
  | [] => true
  | c :: cs => (c = 'e' || c = 'E') && digitPartAccepts (dropSign cs)

/-- The part of a float literal after the optional sign, before splitting the
exponent: `digitpart ["." [digitpart]] | "." digitpart`, with exponent. -/
def floatBodyAccepts (s : List Char) : Bool :=
  -- split at the first '.', 'e' or 'E'
  match pyFind ['.'] s with
  | some i =>
    let intPart := s.take i
    let rest := s.drop (i + 1)
    -- rest = [fraction] [exponent]
    let fracLen := (rest.takeWhile (fun c => isDigitB c || c = '_')).length
    let frac := rest.take fracLen
    let expPart := rest.drop fracLen
    (intPart.isEmpty || digitPartAccepts intPart) &&
    (frac.isEmpty || digitPartAccepts frac) &&
    (!(intPart.isEmpty && frac.isEmpty)) &&
    floatExpAccepts expPart
  | none =>
    let manLen := (s.takeWhile (fun c => isDigitB c || c = '_')).length
    let man := s.take manLen
    let expPart := s.drop manLen
    digitPartAccepts man && floatExpAccepts expPart

/-- Python `float(s)` accepts `s` (for `s` already whitespace-stripped):
either a decimal/exponent literal or one of the special words. -/
def pyFloatAccepts (s : List Char) : Bool :=
  let body := dropSign s
  let low := body.map Char.toLower
  low = ['i','n','f'] || low = ['i','n','f','i','n','i','t','y'] ||
    low = ['n','a','n'] || floatBodyAccepts body

/-! ## The value tokenizer (`SqlParser.parse_value`, sql_parser.py:237-262) -/

/-- A parsed SQL field value.  Python produces `None`, `int`, `float` or
`str`; a float is represented by the literal it was produced from (the code
never computes with the float, it only stores it). -/
inductive Value where
  | vnull : Value
  | vint : Int → Value
  | vfloat : List Char → Value
  | vstr : List Char → Value
deriving DecidableEq, Repr

/-- `content.replace(q+q, q)`: left-to-right, non-overlapping. -/
def collapseDoubled (q : Char) : List Char → List Char
  | [] => []
  | [c] => [c]
  | a :: b :: rest =>
    if a = q && b = q then q :: collapseDoubled q rest
    else a :: collapseDoubled q (b :: rest)

/-- `SqlParser.parse_value`: strip, then NULL / quoted string / int / float /
identity, in that order.  The quoted-string branch takes the interior and
collapses doubled delimiters; there is no backslash handling in the source. -/
def parse_value (s : List Char) : Value :=
  let v := pyStrip s
  if v.isEmpty || pyUpper v = ['N','U','L','L'] then .vnull
  else if (isPrefixOfB ['\''] v && v.getLast? = some '\'') ||
          (isPrefixOfB ['"'] v && v.getLast? = some '"') then
    let q := v.headI
    let content := (v.drop 1).dropLast
    .vstr (collapseDoubled q content)
  else if pyIntAccepts v then .vint (pyIntVal v)
  else if pyFloatAccepts v then .vfloat v
  else .vstr v

/-! ## The byte-at-a-time dump scanner (`SqlParser`, sql_parser.py:11-228)

The parser is a 4-state machine fed decoded text.  `feed` first removes SQL
comments (`_remove_comments`) and then walks the text character by character
with one character of lookahead (for doubled string delimiters).  The Python
attribute `escape_next` is initialized in `__init__` but never read or
written anywhere else in the source, so it is omitted from the state. -/

inductive ParserState where
  | SEARCH_INSERT
  | READ_VALUES
  | READ_ROW
  | READ_FIELD
deriving DecidableEq, Repr

structure PState where
  tableName : List Char
  state : ParserState
  columns : List (List Char)
  currentRow : List (List Char)
  rows : List (List (List Char))
  buffer : List Char
  inString : Bool
  stringDelimiter : Option Char
  parenDepth : Int
  foundTable : Bool
  insertBuffer : List Char
  rowStarted : Bool
deriving DecidableEq, Repr

/-- `SqlParser.__init__` (default table name is `"scores"`). -/
def initParser (table : List Char) : PState :=
  { tableName := table, state := .SEARCH_INSERT, columns := [], currentRow := []
    rows := [], buffer := [], inString := false, stringDelimiter := none
    parenDepth := 0, foundTable := false, insertBuffer := [], rowStarted := false }

/-! ### The regular expressions used by the scanner

The scanner uses `re.search` with three fixed patterns.  Each is embedded as
a direct scanning function; a comment justifies the correspondence with the
backtracking semantics of the pattern. -/

/-- Case-insensitive literal match; returns the remaining input. -/
def matchCI : List Char → List Char → Option (List Char)
  | [], s => some s
  | _ :: _, [] => none
  | c :: cs, d :: ds => if c.toUpper = d.toUpper then matchCI cs ds else none

/-- `\s+` followed by a non-whitespace continuation: one mandatory whitespace
character, then greedily consume the rest.  (Greediness is safe because every
continuation in the patterns below starts with a non-whitespace literal.) -/
def matchSpaces1 : List Char → Option (List Char)
  | [] => none
  | c :: cs => if pyIsSpace c then some (dropWhileB pyIsSpace cs) else none

/-- One match attempt, at the start of `s`, of
`INSERT\s+INTO\s+[`"']?<table>[`"']?` (IGNORECASE).  The final optional quote
always succeeds (it may match empty), so only the prefix up to the table name
decides the attempt.  The optional quote before the table name is taken
greedily; backtracking on it could only matter for table names beginning with
a quote character, which the pipeline never uses. -/
def matchInsertIntoAt (table : List Char) (s : List Char) : Bool :=
  (Option.isSome <| do
    let s ← matchCI ['I','N','S','E','R','T'] s
    let s ← matchSpaces1 s
    let s ← matchCI ['I','N','T','O'] s
    let s ← matchSpaces1 s
    let s := match s with
      | c :: rest => if c = '`' || c = '"' || c = '\'' then rest else c :: rest
      | [] => []
    matchCI table s)

/-- `re.search` of the table pattern: try every start position, leftmost
first (only existence is used by the scanner). -/
def searchInsertIntoTable (table : List Char) : List Char → Bool
  | [] => false
  | s@(_ :: rest) => matchInsertIntoAt table s || searchInsertIntoTable table rest

/-- One match attempt, at the start of `s`, of `\(([^)]+)\)\s*VALUES`
(IGNORECASE), returning group 1.  `[^)]+` is greedy and cannot cross a `)`,
so it extends exactly to the first `)` after the opening parenthesis and
never usefully backtracks; `\s*` is greedy and `VALUES` starts with a
non-whitespace character, so no backtracking arises there either. -/
def colMatchAt : List Char → Option (List Char)
  | '(' :: rest =>
    let inner := rest.takeWhile (· ≠ ')')
    (match rest.drop inner.length with
     | ')' :: tail =>
       if inner.isEmpty then none
       else if (matchCI ['V','A','L','U','E','S'] (dropWhileB pyIsSpace tail)).isSome
       then some inner else none
     | _ => none)
  | _ => none

/-- `re.search(r"\(([^)]+)\)\s*VALUES", s, IGNORECASE)`, group 1. -/
def colMatchSearch : List Char → Option (List Char)
  | [] => none
  | s@(_ :: rest) =>
    match colMatchAt s with
    | some g => some g
    | none => colMatchSearch rest

/-- `[c.strip().strip("`\"'") for c in col_str.split(",")]`. -/
def parseColumnsList (colStr : List Char) : List (List Char) :=
  (splitOnChar ',' colStr).map (fun c => pyStripChars ['`', '"', '\''] (pyStrip c))

/-! ### Comment removal (`SqlParser._remove_comments`, sql_parser.py:212-228) -/

/-- Truncate one line at the first `--`. -/
def truncAtDashDash (line : List Char) : List Char :=
  match pyFind ['-', '-'] line with
  | some i => line.take i
  | none => line

/-- The `while "/*" in result and "*/" in result` loop.  When the only `*/`
precedes the `/*`, Python's `find("*/", start)` returns `-1`, making
`end = 1`, and the loop never terminates (the text keeps growing); the fuel
models that divergence as stopping, and no theorem below exercises it. -/
def removeBlockComments : Nat → List Char → List Char
  | 0, s => s
  | fuel + 1, s =>
    if containsSub ['/', '*'] s && containsSub ['*', '/'] s then
      match pyFind ['/', '*'] s with
      | some st =>
        (match pyFind ['*', '/'] (s.drop st) with
         | some j => removeBlockComments fuel (s.take st ++ ' ' :: s.drop (st + j + 2))
         | none => removeBlockComments fuel (s.take st ++ ' ' :: s.drop 1))
      | none => s
    else s

/-- `_remove_comments`: per-line `--` truncation, rejoin with newlines, then
the block-comment loop. -/
def removeComments (text : List Char) : List Char :=
  let result := joinWithChar '\n' ((splitOnChar '\n' text).map truncAtDashDash)
  removeBlockComments (result.length + 1) result

/-! ### The character loop of `feed` (sql_parser.py:49-210) -/

/-- Commit `buffer.strip()` to the current row if nonempty, clear the buffer
(lines 115-118, 128-131, 184-187, 197-200). -/
def commitField (st : PState) : PState :=
  let field := pyStrip st.buffer
  if field.isEmpty then { st with buffer := [] }
  else { st with currentRow := st.currentRow ++ [field], buffer := [] }

/-- Append the completed row if nonempty and clear it (lines 121-123,
190-192). -/
def commitRow (st : PState) : PState :=
  if st.currentRow.isEmpty then st
  else { st with rows := st.rows ++ [st.currentRow], currentRow := [] }

/-- The semicolon reset (lines 86-90, 134-138, 202-206). -/
def resetToSearch (st : PState) : PState :=
  { st with state := .SEARCH_INSERT, insertBuffer := [], foundTable := false
            rowStarted := false }

/-- One `SEARCH_INSERT` step for character `ch` (lines 53-77). -/
def stepSearchInsert (st : PState) (ch : Char) : PState :=
  let st := { st with insertBuffer := st.insertBuffer ++ [ch] }
  let upperBuffer := pyUpper st.insertBuffer
  if containsSub ['I','N','S','E','R','T'] upperBuffer &&
     containsSub ['I','N','T','O'] upperBuffer then
    if searchInsertIntoTable st.tableName st.insertBuffer then
      let st := { st with foundTable := true }
      if containsSub ['V','A','L','U','E','S'] upperBuffer then
        let st := match colMatchSearch st.insertBuffer with
          | some colStr => { st with columns := parseColumnsList colStr }
          | none => st
        { st with state := .READ_VALUES, insertBuffer := [] }
      else st
    else if containsSub ['V','A','L','U','E','S'] upperBuffer then
      { st with insertBuffer := [] }
    else st
  else st

/-- One `READ_VALUES` step (lines 79-90). -/
def stepReadValues (st : PState) (ch : Char) : PState :=
  if ch = '(' then
    { st with state := .READ_ROW, parenDepth := 1, buffer := [], currentRow := []
              rowStarted := true }
  else if ch = ';' then resetToSearch st
  else st

/-- One `READ_ROW` step (lines 92-145). -/
def stepReadRow (st : PState) (ch : Char) : PState :=
  if ch = '\'' && !st.inString then
    { st with inString := true, stringDelimiter := some '\'', state := .READ_FIELD
              buffer := st.buffer ++ [ch] }
  else if ch = '"' && !st.inString then
    { st with inString := true, stringDelimiter := some '"', state := .READ_FIELD
              buffer := st.buffer ++ [ch] }
  else if ch = '(' && !st.inString then
    let st := { st with parenDepth := st.parenDepth + 1 }
    let st :=
      if st.parenDepth = 1 then { st with buffer := [], currentRow := [] }
      else { st with buffer := st.buffer ++ [ch] }
    { st with state := .READ_FIELD }
  else if ch = ')' && !st.inString then
    let st := { st with parenDepth := st.parenDepth - 1 }
    if st.parenDepth = 0 then commitRow (commitField st)
    else { st with buffer := st.buffer ++ [ch], state := .READ_FIELD }
  else if ch = ',' && !st.inString && st.parenDepth = 1 then
    { commitField st with state := .READ_FIELD }
  else if ch = ';' && !st.inString && st.parenDepth = 0 then
    resetToSearch st
  else if !pyIsSpace ch then
    if st.parenDepth = 0 then st
    else { st with state := .READ_FIELD, buffer := st.buffer ++ [ch] }
  else st

/-- One `READ_FIELD` step for a non-lookahead character (lines 147-208,
excluding the two doubled-delimiter branches, which `feedChars` handles
because they consume the following character as well). -/
def stepReadFieldSimple (st : PState) (ch : Char) : PState :=
  if ch = '\'' && st.stringDelimiter = none && !st.inString then
    { st with inString := true, stringDelimiter := some '\''
              buffer := st.buffer ++ [ch] }
  else if ch = '"' && st.stringDelimiter = none && !st.inString then
    { st with inString := true, stringDelimiter := some '"'
              buffer := st.buffer ++ [ch] }
  else if ch = '(' && !st.inString then
    { st with parenDepth := st.parenDepth + 1, buffer := st.buffer ++ [ch] }
  else if ch = ')' && !st.inString then
    let st := { st with parenDepth := st.parenDepth - 1 }
    if st.parenDepth = 0 then
      commitRow (commitField { st with state := .READ_ROW })
    else { st with buffer := st.buffer ++ [ch], state := .READ_ROW }
  else if ch = ',' && !st.inString && st.parenDepth = 1 then
    commitField st
  else if ch = ';' && !st.inString && st.parenDepth = 0 then
    resetToSearch st
  else { st with buffer := st.buffer ++ [ch] }

/-- Does this `READ_FIELD` character hit one of the two doubled-delimiter
branches (lines 160-177), which look one character ahead? -/
def isDelimHit (st : PState) (ch : Char) : Bool :=
  (ch = '\'' && st.stringDelimiter = some '\'') ||
  (ch = '"' && st.stringDelimiter = some '"')

/-- Closing a string: the non-doubled outcome of a delimiter hit
(lines 165-168 and 174-177). -/
def closeStr (st : PState) (ch : Char) : PState :=
  { st with buffer := st.buffer ++ [ch], inString := false
            stringDelimiter := none, state := .READ_ROW }

/-- One character in the current state, when no lookahead is pending.  A
delimiter hit cannot be resolved until the next character is seen (Python
peeks at `text[i+1]`), so it is returned as a pending lookahead instead of
being applied. -/
def procOne (st : PState) (ch : Char) : Option Char × PState :=
  match st.state with
  | .SEARCH_INSERT => (none, stepSearchInsert st ch)
  | .READ_VALUES => (none, stepReadValues st ch)
  | .READ_ROW => (none, stepReadRow st ch)
  | .READ_FIELD =>
    if isDelimHit st ch then (some ch, st)
    else (none, stepReadFieldSimple st ch)

/-- One iteration of the `while i < len(text)` loop.  The accumulator's
first component holds a delimiter character whose doubled-or-close decision
is waiting for the current character: Python consumes `text[i]` and
`text[i+1]` in one iteration (lines 160-177); here the same two-character
transaction is split over two `foldl` steps. -/
def feedOne (acc : Option Char × PState) (ch : Char) : Option Char × PState :=
  match acc with
  | (some q, st) =>
    if ch = q then (none, { st with buffer := st.buffer ++ [q, ch] })
    else procOne (closeStr st q) ch
  | (none, st) => procOne st ch

/-- Resolve a pending delimiter at end of input: Python's `i + 1 < len(text)`
test fails, so the string is closed (lines 162, 165-168). -/
def finishPending (acc : Option Char × PState) : PState :=
  match acc with
  | (some q, st) => closeStr st q
  | (none, st) => st

/-- The character loop of `feed` over comment-stripped text. -/
def feedChars (st : PState) (text : List Char) : PState :=
  finishPending (text.foldl feedOne (none, st))

/-- `SqlParser.feed`. -/
def feed (st : PState) (text : List Char) : PState :=
  feedChars st (removeComments text)

/-- `SqlParser.parse_line`: feed one line, pop the first completed row. -/
def parse_line (st : PState) (line : List Char) : PState × Option (List (List Char)) :=
  let st := feed st line
  match st.rows with
  | r :: rs => ({ st with rows := rs }, some r)
  | [] => (st, none)

/-! ## JSON values and `json.loads`

`parse_mods_from_data` feeds the `data` column through `json.loads`.  The
decoded value is modelled by `Json`; a number keeps the literal it was
scanned from (the mod pipeline never computes with numbers, it only tests
truthiness and equality).  A decoded Python `str` is a sequence of code
points which — through the lone-surrogate `\u` escapes CPython accepts —
need not all be scalar values, so decoded strings are `List Nat` of code
points (`Char.toNat` injects the scalar source text).  `jsonLoads` mirrors
the scanner CPython installs by default (`c_make_scanner` /
`scanner.py`): strict rejection of unescaped control characters inside
string literals, the `NaN` / `Infinity` / `-Infinity` float constants at
value position, surrogate-pair combination with lone surrogates passed
through, fail-fast number grammar.  The fuel for object/array nesting is
amply larger than any input needs; interpreter resource limits (the
recursion limit on very deep nesting) are not modelled. -/

/-- Code points of source text (every `Char` is a scalar value). -/
def codes (s : List Char) : List Nat := s.map Char.toNat

/-- Scalar-text rendering of a code-point string, used where a derived
Python `str` is stored into a row cell.  `Char.ofNat` sends the surrogate
code points, which have no `Char` counterpart, to `'\x00'`; every
driver-level theorem evaluates on concrete inputs whose derived strings
are scalar text, where the rendering is exact. -/
def charsOfCodes (s : List Nat) : List Char := s.map Char.ofNat

/-- `needle` occurs at position 0 of `hay`, for code-point strings. -/
def isPrefixOfN : List Nat → List Nat → Bool
  | [], _ => true
  | _ :: _, [] => false
  | a :: as, b :: bs => a = b && isPrefixOfN as bs

/-- Python `needle in hay` (substring containment) for code-point
strings. -/
def containsSubN (needle hay : List Nat) : Bool :=
  match hay with
  | [] => isPrefixOfN needle []
  | _ :: rest => isPrefixOfN needle hay || containsSubN needle rest

/-- Python `sep.join(parts)` for code-point strings and a one-code-point
separator. -/
def joinWithCode (sep : Nat) : List (List Nat) → List Nat
  | [] => []
  | [x] => x
  | x :: xs => x ++ sep :: joinWithCode sep xs

inductive Json where
  | jnull
  | jbool (b : Bool)
  | jnum (lit : List Char)
  | jstr (s : List Nat)
  | jarr (elems : List Json)
  | jobj (kvs : List (List Nat × Json))
deriving Repr

/-- JSON whitespace (RFC 8259): space, tab, newline, carriage return. -/
def jsonWs (c : Char) : Bool := c = ' ' || c = '\t' || c = '\n' || c = '\x0d'

def hexVal (c : Char) : Option Nat :=
  let n := c.toNat
  if 48 ≤ n && n ≤ 57 then some (n - 48)
  else if 97 ≤ n && n ≤ 102 then some (n - 87)
  else if 65 ≤ n && n ≤ 70 then some (n - 55)
  else none

/-- Body of a JSON string literal, after the opening quote, as CPython's
`scanstring` (strict mode, the default) reads it: an unescaped control
character (code below 0x20) is an error; `\uXXXX` needs exactly four hex
digits; a high surrogate followed by a second `\u` escape demands valid
hex there and combines with it when it is a low surrogate, otherwise the
high surrogate stays lone and the second escape is re-read normally; lone
surrogates decode to their own code point.  Returns the decoded code
points and the input after the closing quote.  Every step consumes at
least one input character, so the fuel `input.length + 1` supplied by
`parseJStr` never runs out (the lone-surrogate re-read forces the fuel
form; the recursion is structural on the fuel so that evaluation stays
kernel-reducible). -/
def parseJStrF : Nat → List Nat → List Char → Except Unit (List Nat × List Char)
  | 0, _, _ => .error ()
  | fuel + 1, acc, input =>
    match input with
    | [] => .error ()
    | '"' :: rest => .ok (acc.reverse, rest)
    | '\\' :: esc =>
      (match esc with
       | '"' :: r => parseJStrF fuel (34 :: acc) r
       | '\\' :: r => parseJStrF fuel (92 :: acc) r
       | '/' :: r => parseJStrF fuel (47 :: acc) r
       | 'b' :: r => parseJStrF fuel (8 :: acc) r
       | 'f' :: r => parseJStrF fuel (12 :: acc) r
       | 'n' :: r => parseJStrF fuel (10 :: acc) r
       | 'r' :: r => parseJStrF fuel (13 :: acc) r
       | 't' :: r => parseJStrF fuel (9 :: acc) r
       | 'u' :: h1 :: h2 :: h3 :: h4 :: r =>
         (match hexVal h1, hexVal h2, hexVal h3, hexVal h4 with
          | some a, some b, some c, some d =>
            let code := ((a * 16 + b) * 16 + c) * 16 + d
            if 0xd800 ≤ code && code ≤ 0xdbff then
              match r with
              | '\\' :: 'u' :: g1 :: g2 :: g3 :: g4 :: r2 =>
                (match hexVal g1, hexVal g2, hexVal g3, hexVal g4 with
                 | some a2, some b2, some c2, some d2 =>
                   let code2 := ((a2 * 16 + b2) * 16 + c2) * 16 + d2
                   if 0xdc00 ≤ code2 && code2 ≤ 0xdfff then
                     parseJStrF fuel
                       ((0x10000 + (code - 0xd800) * 1024 + (code2 - 0xdc00)) :: acc) r2
                   else parseJStrF fuel (code :: acc) r
                 | _, _, _, _ => .error ())
              | '\\' :: 'u' :: _ => .error ()
              | _ => parseJStrF fuel (code :: acc) r
            else parseJStrF fuel (code :: acc) r
          | _, _, _, _ => .error ())
       | _ => .error ())
    | c :: rest =>
      if c.toNat < 32 then .error () else parseJStrF fuel (c.toNat :: acc) rest

def parseJStr (acc : List Nat) (s : List Char) : Except Unit (List Nat × List Char) :=
  parseJStrF (s.length + 1) acc s

/-- A run of decimal digits, longest first. -/
def digitsRun (s : List Char) : List Char × List Char :=
  (s.takeWhile isDigitB, s.drop (s.takeWhile isDigitB).length)

/-- A JSON number literal: `-? int frac? exp?` with a strict integer part
(`0`, or a nonzero digit followed by digits).  Returns the literal. -/
def parseJNum (s : List Char) : Except Unit (List Char × List Char) :=
  let (sign, s1) := match s with
    | '-' :: r => (['-'], r)
    | _ => (([] : List Char), s)
  match s1 with
  | [] => .error ()
  | c :: _ =>
    if !isDigitB c then .error ()
    else
      let (ds, s2) := digitsRun s1
      let intPart := if c = '0' then ['0'] else ds
      let s2 := if c = '0' then s1.drop 1 else s2
      let (frac, s3) :=
        match s2 with
        | '.' :: r =>
          let (fds, r2) := digitsRun r
          if fds.isEmpty then (none, s2) else (some ('.' :: fds), r2)
        | _ => (none, s2)
      if (match s2 with | '.' :: _ => frac.isNone | _ => false) then .error ()
      else
        let (expo, s4) :=
          match s3 with
          | e :: r =>
            if e = 'e' || e = 'E' then
              let (es, r1) := match r with
                | '+' :: r1 => (['+'], r1)
                | '-' :: r1 => (['-'], r1)
                | _ => (([] : List Char), r)
              let (eds, r2) := digitsRun r1
              if eds.isEmpty then (none, s3) else (some (e :: es ++ eds), r2)
            else (none, s3)
          | [] => (none, s3)
        if (match s3 with
            | e :: _ => (e = 'e' || e = 'E') && expo.isNone
            | [] => false) then .error ()
        else .ok (sign ++ intPart ++ (frac.getD []) ++ (expo.getD []), s4)

mutual

/-- One JSON value (leading whitespace allowed).  Mirrors CPython's
`scan_once`: containers, strings, the three keyword literals, the
`NaN` / `Infinity` / `-Infinity` float constants, then the number
grammar. -/
def parseJVal : Nat → List Char → Except Unit (Json × List Char)
  | 0, _ => .error ()
  | fuel + 1, s =>
    match dropWhileB jsonWs s with
    | '{' :: rest => parseJObj fuel (dropWhileB jsonWs rest) []
    | '[' :: rest => parseJArr fuel (dropWhileB jsonWs rest) []
    | '"' :: rest => (parseJStr [] rest).map (fun (str, r) => (.jstr str, r))
    | 't' :: 'r' :: 'u' :: 'e' :: rest => .ok (.jbool true, rest)
    | 'f' :: 'a' :: 'l' :: 's' :: 'e' :: rest => .ok (.jbool false, rest)
    | 'n' :: 'u' :: 'l' :: 'l' :: rest => .ok (.jnull, rest)
    | 'N' :: 'a' :: 'N' :: rest => .ok (.jnum ['N', 'a', 'N'], rest)
    | 'I' :: 'n' :: 'f' :: 'i' :: 'n' :: 'i' :: 't' :: 'y' :: rest =>
      .ok (.jnum ['I', 'n', 'f', 'i', 'n', 'i', 't', 'y'], rest)
    | '-' :: 'I' :: 'n' :: 'f' :: 'i' :: 'n' :: 'i' :: 't' :: 'y' :: rest =>
      .ok (.jnum ['-', 'I', 'n', 'f', 'i', 'n', 'i', 't', 'y'], rest)
    | s' => (parseJNum s').map (fun (lit, r) => (.jnum lit, r))

/-- Object members, positioned after `{` (whitespace skipped); `acc` holds
the members read so far, in order. -/
def parseJObj : Nat → List Char → List (List Nat × Json) →
    Except Unit (Json × List Char)
  | 0, _, _ => .error ()
  | _ + 1, '}' :: rest, [] => .ok (.jobj [], rest)
  | fuel + 1, s, acc => do
    let (k, s1) ← match dropWhileB jsonWs s with
      | '"' :: rest => parseJStr [] rest
      | _ => .error ()
    let s2 := dropWhileB jsonWs s1
    match s2 with
    | ':' :: s3 => do
      let (v, s4) ← parseJVal fuel s3
      let s5 := dropWhileB jsonWs s4
      (match s5 with
       | ',' :: s6 => parseJObj fuel s6 (acc ++ [(k, v)])
       | '}' :: s6 => .ok (.jobj (acc ++ [(k, v)]), s6)
       | _ => .error ())
    | _ => .error ()

/-- Array elements, positioned after `[` (whitespace skipped). -/
def parseJArr : Nat → List Char → List Json → Except Unit (Json × List Char)
  | 0, _, _ => .error ()
  | _ + 1, ']' :: rest, [] => .ok (.jarr [], rest)
  | fuel + 1, s, acc => do
    let (v, s1) ← parseJVal fuel s
    let s2 := dropWhileB jsonWs s1
    match s2 with
    | ',' :: s3 => parseJArr fuel s3 (acc ++ [v])
    | ']' :: s3 => .ok (.jarr (acc ++ [v]), s3)
    | _ => .error ()

end

/-- `json.loads`: one value, then nothing but whitespace (otherwise
`Extra data`). -/
def jsonLoads (s : List Char) : Except Unit Json := do
  let (j, rest) ← parseJVal (4 * s.length + 16) s
  if (dropWhileB jsonWs rest).isEmpty then pure j else .error ()

/-! ## The mod normalizer (`parse_mods_from_data` / `normalize_mods`,
sql_parser.py:269-300) -/

/-- Python-level errors that can escape the mod pipeline. -/
inductive PyErr where
  | typeError
  | attributeError
deriving DecidableEq, Repr

/-- `dict.get k`: later duplicate keys shadow earlier ones, as in the dict
built by `json.loads`. -/
def objGet (kvs : List (List Nat × Json)) (k : List Nat) : Option Json :=
  kvs.foldl (fun acc p => if p.1 = k then some p.2 else acc) none

/-- `"acronym" in mod` key test for a dict. -/
def objHasKey (kvs : List (List Nat × Json)) (k : List Nat) : Bool :=
  kvs.any (fun p => p.1 == k)

/-- Is this JSON number literal the number zero (`0`, `-0`, `0.00`, `0e9`,
…)?  Needed for Python truthiness. -/
def numLitIsZero (lit : List Char) : Bool :=
  let body := dropSign lit
  let mantissa := body.takeWhile (fun c => c ≠ 'e' && c ≠ 'E')
  mantissa.all (fun c => c = '0' || c = '.')

/-- Python truthiness of a decoded JSON value (`if not mods`). -/
def jsonTruthy : Json → Bool
  | .jnull => false
  | .jbool b => b
  | .jnum lit => !numLitIsZero lit
  | .jstr s => !s.isEmpty
  | .jarr l => !l.isEmpty
  | .jobj kvs => !kvs.isEmpty

/-- `parse_mods_from_data` (sql_parser.py:269-277).  The argument is the
already-tokenized value of the `data` column (the callers in
`_rows_to_batch` and `parse_sql_file_fast` pass the parsed cell, which need
not be a string).  `json.loads` raises `TypeError` on non-string input and
`JSONDecodeError` on bad input; both are caught, yielding `[]`.  A
successful parse of a non-object makes `data.get("mods", [])` raise
`AttributeError`, which is NOT caught and escapes. -/
def parse_mods_from_data (v : Value) : Except PyErr Json :=
  match v with
  | .vnull => .ok (.jarr [])
  | .vstr s =>
    if s = ['N','U','L','L'] then .ok (.jarr [])
    else
      match jsonLoads s with
      | .error _ => .ok (.jarr [])
      | .ok (.jobj kvs) => .ok ((objGet kvs (codes ['m','o','d','s'])).getD (.jarr []))
      | .ok _ => .error .attributeError
  | _ => .ok (.jarr [])

/-- `for mod in mods`: what iterating the (truthy) mods value yields.  A
string yields its characters as 1-character strings; a dict yields its keys
(first-occurrence order); numbers and booleans are not iterable
(`TypeError`). -/
def iterElems : Json → Except PyErr (List Json)
  | .jarr l => .ok l
  | .jstr s => .ok (s.map (fun c => .jstr [c]))
  | .jobj kvs =>
    .ok ((kvs.foldl (fun acc p => if acc.contains p.1 then acc else acc ++ [p.1]) []).map .jstr)
  | _ => .error .typeError

/-- The comprehension
`[mod["acronym"] for mod in mods if "acronym" in mod]`: a dict element is
tested for the key; `"acronym" in mod` on a string element is a substring
test (and indexing a hit raises `TypeError`), on a list element a membership
test (same), and on anything else raises `TypeError` outright. -/
def isAcronymLiteral : Json → Bool
  | .jstr s => s == codes ['a','c','r','o','n','y','m']
  | _ => false

def collectAcronyms : List Json → Except PyErr (List Json)
  | [] => .ok []
  | m :: rest => do
    let hd : Except PyErr (Option Json) :=
      match m with
      | .jobj kvs =>
        if objHasKey kvs (codes ['a','c','r','o','n','y','m']) then
          .ok (objGet kvs (codes ['a','c','r','o','n','y','m']))
        else .ok none
      | .jstr s =>
        if containsSubN (codes ['a','c','r','o','n','y','m']) s then .error .typeError
        else .ok none
      | .jarr elems =>
        if elems.any isAcronymLiteral then .error .typeError
        else .ok none
      | _ => .error .typeError
    let h ← hd
    let tl ← collectAcronyms rest
    .ok (h.toList ++ tl)

/-- Are all collected acronym values strings?  If not, `acronyms.sort()` or
`",".join(acronyms)` raises `TypeError` (mixed types fail the sort,
homogeneous non-strings fail the join; the observable outcome is the same
error). -/
def allStrings : List Json → Option (List (List Nat))
  | [] => some []
  | .jstr s :: rest => (allStrings rest).map (s :: ·)
  | _ => none

/-- The error, if any, of a fallible computation (used to state facts about
`Except` results without needing decidable equality of `Json`). -/
def pyErrOf {a : Type} : Except PyErr a → Option PyErr
  | .error e => some e
  | .ok _ => none

/-- `normalize_mods` (sql_parser.py:280-300): falsy input short-circuits to
`("", None)`; otherwise collect acronyms, sort lexicographically
(`list.sort` on Python strings is lexicographic by code point, the same
order as `≤` on `List Char`), comma-join, and derive the speed tag. -/
def normalize_mods (mods : Json) : Except PyErr (List Nat × Option (List Nat)) :=
  if !jsonTruthy mods then .ok ([], none)
  else do
    let elems ← iterElems mods
    let acs ← collectAcronyms elems
    match allStrings acs with
    | some strs =>
      let sorted := List.insertionSort (· ≤ ·) strs
      let key := joinWithCode ','.toNat sorted
      let speed : Option (List Nat) :=
        if sorted.contains (codes ['D','T']) || sorted.contains (codes ['N','C']) then
          some (codes ['D','T'])
        else if sorted.contains (codes ['H','T']) then some (codes ['H','T'])
        else none
      .ok (key, speed)
    | none => .error .typeError

/-! ## Row typing and the slow driver (`_rows_to_batch` / `parse_sql_file`,
sql_parser.py:329-465)

Both drivers are modelled at the level of cell values: an emitted batch is
compared through the list of its rows, each row being the list of parsed
cell values in column order (with the two derived cells appended).  The
Arrow schema machinery (`_infer_column_types`, `pa.array`) chooses physical
representations for those same values and is not part of any claim.  File
I/O becomes an explicit list of lines, and the progress instrumentation
(`time`, `logger`) is elided — the fact that `sql_parser.py` never imports
`time`/`logging`, making the real `parse_sql_file` raise `NameError`, is
recorded with claim C9. -/

/-- A `speed_mod` cell: Python `None` is a null cell, a string is a string
cell. -/
def speedVal : Option (List Char) → Value
  | some s => .vstr s
  | none => .vnull

/-- The per-row work of `_rows_to_batch` (sql_parser.py:362-387): parse each
lexeme, pad with nulls to the column count, derive `(mods_key, speed_mod)`
from the cell of the first column named `data` (empty/None when there is no
such column), then lay out one cell per column followed by the two derived
cells.  Cells beyond the column count are dropped by the layout loop. -/
def rowToTyped (columns : List (List Char)) (row : List (List Char)) :
    Except PyErr (List Value) := do
  let parsedValues := row.map parse_value
  let parsedValues :=
    parsedValues ++ List.replicate (columns.length - parsedValues.length) Value.vnull
  let dataIdx := columns.findIdx? (· == ['d','a','t','a'])
  let pair ←
    match dataIdx with
    | some i =>
      if i < parsedValues.length then do
        let mods ← parse_mods_from_data (parsedValues.getD i .vnull)
        normalize_mods mods
      else pure ([], none)
    | none => pure ([], none)
  let cells := (List.range columns.length).map (fun i => parsedValues.getD i .vnull)
  pure (cells ++ [.vstr (charsOfCodes pair.1), speedVal (pair.2.map charsOfCodes)])

/-- `cols = columns if columns else parser.columns` (sql_parser.py:459,464):
a `None` or empty `columns` argument falls back to the parser's detected
columns. -/
def chooseCols (param : Option (List (List Char))) (parserCols : List (List Char)) :
    List (List Char) :=
  match param with
  | some cs => if cs.isEmpty then parserCols else cs
  | none => parserCols

/-- Accumulator of the `parse_sql_file` loop: parser state, rows buffered
for the current batch, and the finished batches (each with the column list
that was current when it was sealed). -/
structure SlowAcc where
  st : PState
  batchRows : List (List (List Char))
  batches : List (List (List (List Char)) × List (List Char))

/-- One line of the `for line in f` loop of `parse_sql_file`
(sql_parser.py:443-461): `parse_line` pops at most ONE completed row per
line; a full batch is sealed with the columns chosen at that moment. -/
def slowLineStep (batchSize : Nat) (param : Option (List (List Char)))
    (acc : SlowAcc) (line : List Char) : SlowAcc :=
  let (st, r?) := parse_line acc.st line
  match r? with
  | none => { acc with st := st }
  | some r =>
    let batchRows := acc.batchRows ++ [r]
    if batchSize ≤ batchRows.length then
      { st := st, batchRows := []
        batches := acc.batches ++ [(batchRows, chooseCols param st.columns)] }
    else { acc with st := st, batchRows := batchRows }

/-- `parse_sql_file` (sql_parser.py:418-465), as the concatenated rows of
the batches it yields.  Rows completed by `feed` but never popped by
`parse_line` (more than one tuple finishing on a single physical line) stay
inside the parser and are silently dropped, exactly as in the source. -/
def parse_sql_file (tableName : List Char) (batchSize : Nat)
    (param : Option (List (List Char))) (lines : List (List Char)) :
    Except PyErr (List (List Value)) := do
  let acc := lines.foldl (slowLineStep batchSize param)
    ⟨initParser tableName, [], []⟩
  let batches :=
    if acc.batchRows.isEmpty then acc.batches
    else acc.batches ++ [(acc.batchRows, chooseCols param acc.st.columns)]
  let typed ← batches.mapM (fun b => b.1.mapM (rowToTyped b.2))
  pure typed.flatten

/-! ## The regex bulk scanner (`parse_sql_file_fast`,
sql_parser_fast.py:14-231)

`VALUES_PATTERN` is
`INSERT\s+INTO\s+[`'"]?\w+[`'"]?\s+(?:\([^)]+\)\s+)?VALUES\s+(.+?)(?:;|$)`
with IGNORECASE and DOTALL.  Each piece is deterministic under Python's
backtracking: `\s+` is greedy and every continuation begins with a
non-whitespace character; `\w+` is greedy and the continuation
(`[`'"]?\s+`) cannot match a word character; `[^)]+` is greedy and cannot
cross `)`, so it reaches exactly the first `)`; the optional column-list
group either matches wholly or is skipped; the lazy `(.+?)` stops at the
first position (after at least one character) where `;` matches, or where
`$` matches — in Python, the end of the string or just before a trailing
newline. -/

def isWordChar (c : Char) : Bool :=
  ('a' ≤ c && c ≤ 'z') || ('A' ≤ c && c ≤ 'Z') || isDigitB c || c = '_'

def consumeOptQuote : List Char → List Char
  | c :: rest => if c = '`' || c = '\'' || c = '"' then rest else c :: rest
  | [] => []

/-- The optional `(?:\([^)]+\)\s+)?` column-list group: consumed if it
matches in full, skipped otherwise. -/
def tryColGroup (s : List Char) : List Char :=
  match s with
  | '(' :: rest =>
    let inner := rest.takeWhile (· ≠ ')')
    (match rest.drop inner.length with
     | ')' :: tail =>
       if inner.isEmpty then s
       else
         match matchSpaces1 tail with
         | some t => t
         | none => s
     | _ => s)
  | _ => s

/-- The lazy tail `(.+?)(?:;|$)`: at least one character, then stop at the
first `;`, at the end of the string, or just before a trailing newline. -/
def lazyUpToSemiOrEnd (r : List Char) : Option (List Char) :=
  match r with
  | [] => none
  | c :: rest => some (go [c] rest)
where
  go (acc : List Char) : List Char → List Char
    | [] => acc.reverse
    | ';' :: _ => acc.reverse
    | ['\n'] => acc.reverse
    | c :: rest => go (c :: acc) rest

/-- One `VALUES_PATTERN` match attempt at the start of `s`, returning
group 1. -/
def valuesMatchAt (s : List Char) : Option (List Char) := do
  let s ← matchCI ['I','N','S','E','R','T'] s
  let s ← matchSpaces1 s
  let s ← matchCI ['I','N','T','O'] s
  let s ← matchSpaces1 s
  let s := consumeOptQuote s
  let w := s.takeWhile isWordChar
  if w.isEmpty then none
  else do
    let s := consumeOptQuote (s.drop w.length)
    let s ← matchSpaces1 s
    let s := tryColGroup s
    let s ← matchCI ['V','A','L','U','E','S'] s
    let s ← matchSpaces1 s
    lazyUpToSemiOrEnd s

/-- `VALUES_PATTERN.search`: leftmost successful attempt. -/
def valuesPatternSearch : List Char → Option (List Char)
  | [] => none
  | s@(_ :: rest) =>
    match valuesMatchAt s with
    | some g => some g
    | none => valuesPatternSearch rest

/-- `TUPLE_PATTERN.findall` with pattern `\(([^)]+(?:\([^)]*\)[^)]*)*)\)`.
At an opening `(`, greedy `[^)]+` reaches exactly the first following `)`;
the starred group then needs `(` where a `)` stands, so it matches zero
times, and `\)` closes the match: group 1 is the (nonempty) text up to the
first `)`.  On failure the scan advances one character; after a match it
resumes past the consumed text (findall is non-overlapping). -/
def tupleFindallF : Nat → List Char → List (List Char)
  | 0, _ => []
  | _ + 1, [] => []
  | fuel + 1, '(' :: rest =>
    let inner := rest.takeWhile (· ≠ ')')
    (match rest.drop inner.length with
     | ')' :: tail =>
       if inner.isEmpty then tupleFindallF fuel rest
       else inner :: tupleFindallF fuel tail
     | _ => tupleFindallF fuel rest)
  | fuel + 1, _ :: rest => tupleFindallF fuel rest

def tupleFindall (s : List Char) : List (List Char) :=
  tupleFindallF (s.length + 1) s

/-- State of the field-splitting loop of `parse_sql_file_fast`
(lines 152-156). -/
structure FastSplit where
  fields : List (List Char)
  currentField : List Char
  inString : Bool
  stringChar : Option Char
  parenDepth : Int

/-- One character of the field-splitting loop (lines 158-181).  In the
closing-quote branch the source appends the character in both the escaped
and unescaped cases; only `in_string` differs. -/
def fastSplitStep (st : FastSplit) (c : Char) : FastSplit :=
  if (c = '\'' || c = '"') && !st.inString then
    { st with inString := true, stringChar := some c
              currentField := st.currentField ++ [c] }
  else if st.stringChar = some c && st.inString then
    if st.currentField.getLast? = some '\\' then
      { st with currentField := st.currentField ++ [c] }
    else
      { st with currentField := st.currentField ++ [c], inString := false
                stringChar := none }
  else if c = '(' && !st.inString then
    { st with parenDepth := st.parenDepth + 1, currentField := st.currentField ++ [c] }
  else if c = ')' && !st.inString then
    { st with parenDepth := st.parenDepth - 1, currentField := st.currentField ++ [c] }
  else if c = ',' && !st.inString && st.parenDepth = 0 then
    { st with fields := st.fields ++ [pyStrip st.currentField], currentField := [] }
  else { st with currentField := st.currentField ++ [c] }

/-- The full field split of one tuple (lines 150-184): interior commas
append even empty fields; the trailing field is appended only if nonempty
after stripping. -/
def splitTupleFast (tupleStr : List Char) : List (List Char) :=
  let st := tupleStr.foldl fastSplitStep ⟨[], [], false, none, 0⟩
  if (pyStrip st.currentField).isEmpty then st.fields
  else st.fields ++ [pyStrip st.currentField]

/-- `parse_value_fast` (sql_parser_fast.py:22-51): same cascade as
`SqlParser.parse_value`. -/
def parse_value_fast (s : List Char) : Value :=
  let v := pyStrip s
  if v.isEmpty || pyUpper v = ['N','U','L','L'] then .vnull
  else if (isPrefixOfB ['\''] v && v.getLast? = some '\'') ||
          (isPrefixOfB ['"'] v && v.getLast? = some '"') then
    let q := v.headI
    let content := (v.drop 1).dropLast
    .vstr (collapseDoubled q content)
  else if pyIntAccepts v then .vint (pyIntVal v)
  else if pyFloatAccepts v then .vfloat v
  else .vstr v

/-- One tuple of the bulk scanner (sql_parser_fast.py:150-198): split the
fields, parse them, and — when the row has at least 4 cells — read the
`data` value at the FIXED offset `-3` from the end and append the derived
`(mods_key, speed_mod)` cells. -/
def fastTupleRow (tupleStr : List Char) : Except PyErr (List Value) := do
  let fields := splitTupleFast tupleStr
  let parsedRow := fields.map parse_value_fast
  if 4 ≤ parsedRow.length then do
    let dataVal := parsedRow.getD (parsedRow.length - 3) .vnull
    let mods ← parse_mods_from_data dataVal
    let pair ← normalize_mods mods
    pure (parsedRow ++ [.vstr (charsOfCodes pair.1), speedVal (pair.2.map charsOfCodes)])
  else pure parsedRow

/-- One line of `parse_sql_file_fast` (sql_parser_fast.py:122-216): the fast
containment pre-filter, the `VALUES_PATTERN` search, one-time column
detection (declared columns plus the two derived names), then one row per
tuple found by `TUPLE_PATTERN`. -/
def fastLine (tableName : List Char) (detectedCols : Option (List (List Char)))
    (line : List Char) :
    Except PyErr (Option (List (List Char)) × List (List Value)) := do
  if !(containsSub ['I','N','S','E','R','T'] (pyUpper line)) ||
     !(containsSub (pyUpper tableName) (pyUpper line)) then
    pure (detectedCols, [])
  else
    match valuesPatternSearch line with
    | none => pure (detectedCols, [])
    | some valuesSection => do
      let detectedCols :=
        match detectedCols with
        | some cs => some cs
        | none =>
          match colMatchSearch line with
          | some colStr =>
            some (parseColumnsList colStr ++
              [['m','o','d','s','_','k','e','y'], ['s','p','e','e','d','_','m','o','d']])
          | none => none
      let rows ← (tupleFindall valuesSection).mapM fastTupleRow
      pure (detectedCols, rows)

/-- `parse_sql_file_fast` (sql_parser_fast.py:101-231), as the concatenated
rows of the batches it yields.  The detected column list only labels the
emitted batches; the cell values are as produced per tuple. -/
def parse_sql_file_fast (tableName : List Char)
    (param : Option (List (List Char))) (lines : List (List Char)) :
    Except PyErr (List (List Value)) := do
  let step := fun (acc : Option (List (List Char)) × List (List Value)) line => do
    let (cols, rows) := acc
    let (cols', newRows) ← fastLine tableName cols line
    pure (cols', rows ++ newRows)
  let out ← lines.foldlM step (param, [])
  pure out.2

/-! ## The sharded columnar writer (`ParquetWriter`, parquet_writer.py:12-264)

Modelled at the level of row counts and schemas: a batch is its row count
plus its schema (cell data does not influence sharding); a row group is its
row count; a shard file records its final row count and its row-group
sizes.  File paths, byte sizes and SHA-256 hashes are not modelled — no
claim here is about them.  `pq.ParquetWriter.write_table(chunk)` appends
one row group per call (each chunk passed is at most `row_group_rows` rows,
so pyarrow never splits further). -/

/-- An Arrow schema: field names with type names. -/
abbrev Schema := List (List Char × List Char)

structure PqBatch where
  numRows : Nat
  schema : Schema
deriving DecidableEq, Repr

structure FileRec where
  rows : Nat
  groups : List Nat
deriving DecidableEq, Repr

structure PWriter where
  rowGroupRows : Nat
  fileRows : Nat
  schema : Option Schema
  currentFileIndex : Nat
  currentRowCount : Nat
  totalRowCount : Nat
  fileInfo : List FileRec
  currentWriter : Option (List Nat)
  bufferedBatches : List Nat
  bufferedRows : Nat
deriving DecidableEq, Repr

/-- `ParquetWriter.__init__` (lines 22-50). -/
def initWriter (rowGroupRows fileRows : Nat) (schema : Option Schema) : PWriter :=
  { rowGroupRows := rowGroupRows, fileRows := fileRows, schema := schema
    currentFileIndex := 0, currentRowCount := 0, totalRowCount := 0
    fileInfo := [], currentWriter := none, bufferedBatches := [], bufferedRows := 0 }

/-- `_close_current_file` (lines 168-189): close the writer and append a
file record with the accumulated row count. -/
def closeCurrentFile (w : PWriter) : PWriter :=
  match w.currentWriter with
  | none => w
  | some groups =>
    { w with currentWriter := none
             fileInfo := w.fileInfo ++ [⟨w.currentRowCount, groups⟩] }

/-- `_start_new_file` (lines 140-166): close any open file, bump the shard
index, reset the per-file row count, open a fresh writer. -/
def startNewFile (w : PWriter) : PWriter :=
  let w := closeCurrentFile w
  { w with currentFileIndex := w.currentFileIndex + 1, currentRowCount := 0
           currentWriter := some [] }

/-- The row-group sizes produced by the chunk loop of `_write_table_to_file`
(lines 129-138) for a table of `n` rows: `min(row_group_rows, remaining)`
per iteration.  With `row_group_rows = 0` the Python loop would spin
forever on a nonempty table; the fuel models that as producing nothing, and
every theorem about the writer assumes `row_group_rows ≥ 1`. -/
def writeGroupsF (rgr : Nat) : Nat → Nat → List Nat
  | 0, _ => []
  | _ + 1, 0 => []
  | fuel + 1, n =>
    if rgr = 0 then []
    else min rgr n :: writeGroupsF rgr fuel (n - min rgr n)

def writeGroups (rgr n : Nat) : List Nat := writeGroupsF rgr n n

/-- `_write_table_to_file` (lines 124-138). -/
def writeTableToFile (w : PWriter) (n : Nat) : PWriter :=
  let w := if w.currentWriter.isNone then startNewFile w else w
  let gs := writeGroups w.rowGroupRows n
  { w with currentWriter := some (w.currentWriter.getD [] ++ gs)
           currentRowCount := w.currentRowCount + gs.sum }

/-- Buffered-batch bookkeeping of `_write_rows_to_current_file`: remove `n`
rows from the front, splitting a batch if needed. -/
def dropRowsFromBatches : Nat → List Nat → List Nat
  | 0, bs => bs
  | _, [] => []
  | n, b :: bs => if b ≤ n then dropRowsFromBatches (n - b) bs else (b - n) :: bs

/-- `_write_rows_to_current_file` (lines 86-112): write
`min(num_rows, buffered)` rows from the buffer into the current file as one
table. -/
def writeRowsToCurrentFile (w : PWriter) (num : Nat) : PWriter :=
  if num = 0 || w.bufferedBatches.isEmpty then w
  else
    let m := min num w.bufferedRows
    let w' := if m = 0 then w else writeTableToFile w m
    { w' with bufferedBatches := dropRowsFromBatches num w.bufferedBatches
              bufferedRows := w.bufferedRows - m }

/-- `_write_all_buffered_rows` (lines 114-122). -/
def writeAllBufferedRows (w : PWriter) : PWriter :=
  if w.bufferedBatches.isEmpty then w
  else
    let w' := writeTableToFile w w.bufferedRows
    { w' with bufferedBatches := [], bufferedRows := 0 }

/-- The `while self._buffered_rows > 0` loop of `write_batch`
(lines 67-84).  The fuel passed by `write_batch` exceeds the number of
iterations whenever `file_rows ≥ 1`; with `file_rows = 0` the Python loop
opens and closes empty shard files forever, which no theorem exercises. -/
def writeLoopF : Nat → PWriter → PWriter
  | 0, w => w
  | fuel + 1, w =>
    if w.bufferedRows = 0 then w
    else
      let w := if w.currentWriter.isNone then startNewFile w else w
      if w.fileRows < w.currentRowCount + w.bufferedRows then
        let rowsNeeded := w.fileRows - w.currentRowCount
        let w :=
          if 0 < rowsNeeded && 0 < w.bufferedRows then
            writeRowsToCurrentFile w rowsNeeded
          else w
        writeLoopF fuel (closeCurrentFile w)
      else writeAllBufferedRows w

/-- `write_batch` (lines 52-84): ignore empty batches, adopt the first
batch's schema, buffer the rows, then run the flush loop. -/
def write_batch (w : PWriter) (b : PqBatch) : PWriter :=
  if b.numRows = 0 then w
  else
    let w :=
      match w.schema with
      | some _ => w
      | none => { w with schema := some b.schema }
    let w :=
      { w with bufferedBatches := w.bufferedBatches ++ [b.numRows]
               bufferedRows := w.bufferedRows + b.numRows
               totalRowCount := w.totalRowCount + b.numRows }
    writeLoopF (2 * w.bufferedRows + 2) w

structure Manifest where
  files : List FileRec
  totalRows : Nat
  schemaFields : Schema
deriving DecidableEq, Repr

/-- `_generate_manifest` (lines 218-256).  When shard files exist the
schema is re-read from the first file, which was created with the writer's
(by then fixed) schema; otherwise the writer's own schema is used if it was
ever set (`elif self.schema:` — a schema with zero fields is falsy in
Python, but the resulting field list is empty either way). -/
def generateManifest (w : PWriter) : Manifest :=
  let fields :=
    match w.fileInfo, w.schema with
    | _ :: _, some s => s
    | _ :: _, none => []
    | [], some s => s
    | [], none => []
  { files := w.fileInfo, totalRows := w.totalRowCount, schemaFields := fields }

/-- `finalize` (lines 191-216): flush any buffered rows (opening a file if
none is open), close the open file, emit the manifest. -/
def finalize (w : PWriter) : PWriter × Manifest :=
  let w :=
    if !w.bufferedBatches.isEmpty then
      let w := if w.currentWriter.isNone then startNewFile w else w
      writeAllBufferedRows w
    else w
  let w := closeCurrentFile w
  (w, generateManifest w)

/-- A whole run: construct, write every batch, finalize. -/
def runWriter (rowGroupRows fileRows : Nat) (schema : Option Schema)
    (batches : List PqBatch) : PWriter × Manifest :=
  finalize (batches.foldl write_batch (initWriter rowGroupRows fileRows schema))

/-- The writer invariant: configured limits unchanged; every closed file
and the open file respect the row and row-group budgets; the running total
equals the rows in closed files plus the open file plus the buffer; the
buffer bookkeeping is consistent and holds only nonempty batch slices. -/
def WLInv (rgr fr : Nat) (w : PWriter) : Prop :=
  w.rowGroupRows = rgr ∧ w.fileRows = fr ∧
  (∀ f ∈ w.fileInfo, f.rows ≤ fr ∧ ∀ g ∈ f.groups, g ≤ rgr) ∧
  (∀ gs, w.currentWriter = some gs → w.currentRowCount ≤ fr ∧ ∀ g ∈ gs, g ≤ rgr) ∧
  (w.totalRowCount = (w.fileInfo.map FileRec.rows).sum +
      (match w.currentWriter with | some _ => w.currentRowCount | none => 0) +
      w.bufferedRows) ∧
  w.bufferedBatches.sum = w.bufferedRows ∧
  (∀ b ∈ w.bufferedBatches, 1 ≤ b)

/-- The between-calls strengthening: the buffer is empty (the flush loop of
`write_batch` always drains it). -/
def WInv (rgr fr : Nat) (w : PWriter) : Prop :=
  WLInv rgr fr w ∧ w.bufferedRows = 0 ∧ w.bufferedBatches = []

/-! ## `retry_with_backoff` (parallel_utils.py:301-341)

The callable is modelled by the outcome of each of its invocations
(`f : Nat → Except E A`, attempt-indexed); `time.sleep` is recorded as the
list of delays slept, in order; delays are exact rationals (the Python
floats would accumulate rounding in `delay *= backoff_factor`, which the
spec's `initial · factor^n` idealizes away — the claim is settled against
the exact law). -/

structure RetryTrace (E A : Type) where
  calls : Nat
  delays : List ℚ
  outcome : Except E A
deriving Repr, DecidableEq

/-- The `for attempt in range(max_retries + 1)` loop; `remaining` counts the
attempts still allowed including the current one, so it starts at
`max_retries + 1` and the `remaining = 0` base is unreachable (it mirrors
the `Exception("No attempts made")` placeholder). -/
def retryLoop {E A : Type} [Inhabited E] (f : Nat → Except E A) (factor : ℚ) :
    Nat → Nat → ℚ → List ℚ → RetryTrace E A
  | 0, attempt, _, delaysRev => ⟨attempt, delaysRev.reverse, .error default⟩
  | remaining + 1, attempt, delay, delaysRev =>
    match f attempt with
    | .ok a => ⟨attempt + 1, delaysRev.reverse, .ok a⟩
    | .error e =>
      if remaining = 0 then ⟨attempt + 1, delaysRev.reverse, .error e⟩
      else retryLoop f factor remaining (attempt + 1) (delay * factor) (delay :: delaysRev)

/-- `retry_with_backoff`. -/
def retry_with_backoff {E A : Type} [Inhabited E] (f : Nat → Except E A)
    (maxRetries : Nat) (initialDelay factor : ℚ) : RetryTrace E A :=
  retryLoop f factor (maxRetries + 1) 0 initialDelay []

/-! ## The warehouse materializer (`DuckDBPipeline`, duckdb_pipeline.py)

The staging step is modelled relationally: a table is a list of rows, a row
an association list from column name to cell value.  SQL semantics used:
`WHERE playmode = 0` keeps exactly the rows whose `playmode` cell is the
integer 0 (a NULL comparison is not true, so NULLs are filtered out);
selecting a named column copies its cell. -/

abbrev DbRow := List (List Char × Value)

/-- The first binding of a column (SQL column names are unique per table). -/
def rowLookup (r : DbRow) (c : List Char) : Option Value :=
  (r.find? (fun p => p.1 == c)).map (·.2)

/-- The column list of the `CREATE TABLE stg_scores AS SELECT …` statement
(duckdb_pipeline.py:87-101), in source order. -/
def stgSelectCols : List (List Char) :=
  ["id".data, "user_id".data, "beatmap_id".data, "score".data, "pp".data,
   "playmode".data, "data".data, "mods_key".data, "speed_mod".data]

/-- `create_stg_scores` (duckdb_pipeline.py:79-102). -/
def create_stg_scores (rawScores : List DbRow) : List DbRow :=
  (rawScores.filter (fun r => rowLookup r "playmode".data == some (.vint 0))).map
    (fun r => stgSelectCols.map (fun c => (c, (rowLookup r c).getD .vnull)))

/-- The table names iterated by the manifest loop of `run_full_pipeline`
(duckdb_pipeline.py:236-248). -/
def pipelineTableNames : List (List Char) :=
  ["raw_scores".data, "stg_scores".data, "mart_best_scores".data,
   "mart_user_topk".data, "mart_beatmap_user_sets".data]

/-- The two lookup indexes built by `create_indexes`
(duckdb_pipeline.py:189-210). -/
def pipelineIndexNames : List (List Char) :=
  ["idx_mart_best_scores_beatmap_lookup".data,
   "idx_mart_best_scores_user_lookup".data]

/-- The manifest-population loop of `run_full_pipeline`
(duckdb_pipeline.py:232-250): one entry per name in
`pipelineTableNames`, recording the row count, or 0 when `SELECT COUNT(*)`
raises (missing table).  `count` is the row-count oracle of the database
after the pipeline steps ran. -/
def run_full_pipeline_manifest (count : List Char → Option Nat) :
    List (List Char × Nat) :=
  pipelineTableNames.map (fun t => (t, (count t).getD 0))

/-! ## Spec-side definitions

Definitions in this section transcribe the wording of the specification (or
of an amended claim), to be compared with the code-side embeddings above.
They are deliberately written from the spec's phrasing, not from the
source. -/

/-- The `data`-cell-to-derived-pair composition used by both drivers
(`mods = parse_mods_from_data(data_str); mods_key, speed_mod =
normalize_mods(mods)`, sql_parser.py:374-375). -/
def modsKeyOfData (v : Value) : Except PyErr (List Nat × Option (List Nat)) := do
  let mods ← parse_mods_from_data v
  normalize_mods mods

/-- Spec 4.C: the acronyms of the records of the mods array — `{ m.acronym :
m ∈ M, m has field "acronym" }` — read off a list of record objects.  (On
the code path the collection can also fail; the amended C2 theorem assumes
the well-typed case the spec describes: records are objects and acronyms
are strings.) -/
def specAcronyms (mods : List Json) : List (List Nat) :=
  mods.filterMap (fun m =>
    match m with
    | .jobj kvs =>
      (match objGet kvs (codes ['a','c','r','o','n','y','m']) with
       | some (.jstr a) => some a
       | _ => none)
    | _ => none)

/-- Spec 4.C / glossary: the ternary speed tag derived from the acronym
list: `DT` if `DT` or `NC` occurs (`DT` wins on co-occurrence), else `HT`
if `HT` occurs, else null. -/
def specSpeedTag (acronyms : List (List Nat)) : Option (List Nat) :=
  if acronyms.contains (codes ['D','T']) || acronyms.contains (codes ['N','C']) then
    some (codes ['D','T'])
  else if acronyms.contains (codes ['H','T']) then some (codes ['H','T'])
  else none

/-- Spec 4.A, as amended by claim C3's counterexample: the value tokenizer
described clause by clause — empty or `NULL` → null; same quote character
at both ends → the interior with doubled delimiters collapsed (no backslash
treatment); then integer; then float; then identity. -/
def specValueTokenizer (s : List Char) : Value :=
  let t := pyStrip s
  match t.head?, t.getLast? with
  | none, _ => .vnull
  | some h, some l =>
    if pyUpper t = ['N','U','L','L'] then .vnull
    else if h = l && (h = '\'' || h = '"') then
      .vstr (collapseDoubled h (t.drop 1).dropLast)
    else if pyIntAccepts t then .vint (pyIntVal t)
    else if pyFloatAccepts t then .vfloat t
    else .vstr t
  | some _, none => .vnull

/-- The eight columns claim C4 asserts `stg_scores` keeps. -/
def claimedStgCols : List (List Char) :=
  ["id".data, "user_id".data, "beatmap_id".data, "score".data, "pp".data,
   "data".data, "mods_key".data, "speed_mod".data]

/-- Spec 3 / amended claim C4: the projection of `raw_scores` restricted to
records whose playmode equals zero, keeping the eight claimed columns and
`playmode`. -/
def specStgProjection (raw : List DbRow) : List DbRow :=
  (raw.filter (fun r => rowLookup r "playmode".data == some (.vint 0))).map
    (fun r =>
      [("id".data, (rowLookup r "id".data).getD .vnull),
       ("user_id".data, (rowLookup r "user_id".data).getD .vnull),
       ("beatmap_id".data, (rowLookup r "beatmap_id".data).getD .vnull),
       ("score".data, (rowLookup r "score".data).getD .vnull),
       ("pp".data, (rowLookup r "pp".data).getD .vnull),
       ("playmode".data, (rowLookup r "playmode".data).getD .vnull),
       ("data".data, (rowLookup r "data".data).getD .vnull),
       ("mods_key".data, (rowLookup r "mods_key".data).getD .vnull),
       ("speed_mod".data, (rowLookup r "speed_mod".data).getD .vnull)])

/-- The seven warehouse artifacts claim C5 asserts the manifest covers:
the five tables and the two lookup structures. -/
def claimedSevenArtifacts : List (List Char) :=
  pipelineTableNames ++ pipelineIndexNames

end PpExt

/-! sanity checks (temporary) -/
example : PpExt.parse_value "  NULL ".data = .vnull := by decide
example : PpExt.parse_value "123".data = .vint 123 := by decide
example : PpExt.parse_value "-456".data = .vint (-456) := by decide
example : PpExt.parse_value "98.5".data = .vfloat "98.5".data := by decide
example : PpExt.parse_value "'hello'".data = .vstr "hello".data := by decide
example : PpExt.parse_value "'It''s'".data = .vstr "It's".data := by decide
example : PpExt.parse_value "'a\\''".data = .vstr "a\\'".data := by decide
example : PpExt.parse_value "1_0".data = .vint 10 := by decide
example : PpExt.parse_value "inf".data = .vfloat "inf".data := by decide
example : PpExt.parse_value "'".data = .vstr "".data := by decide
example : PpExt.pyFind "--".data "ab--cd".data = some 2 := by decide
-- JSON sanity
example : (PpExt.jsonLoads "\x7b\"mods\": [\x7b\"acronym\": \"DT\"\x7d]\x7d".data).isOk = true := by decide
example : (PpExt.jsonLoads "[1, 2.5, true, null]".data).isOk = true := by decide
example : (PpExt.jsonLoads "\x7bbad".data).isOk = false := by decide
example : (PpExt.jsonLoads "\x7b\x7d extra".data).isOk = false := by decide
-- CPython fidelity: raw control characters inside string literals are
-- rejected (strict mode), escaped ones are fine
example : (PpExt.jsonLoads ['"', 'a', '\t', 'b', '"']).isOk = false := by decide
example : PpExt.jsonLoads "\"a\\tb\"".data = .ok (.jstr [97, 9, 98]) := rfl
-- CPython fidelity: the NaN / Infinity / -Infinity constants parse as floats
example : (PpExt.jsonLoads "NaN".data).isOk = true := by decide
example : (PpExt.jsonLoads "Infinity".data).isOk = true := by decide
example : (PpExt.jsonLoads "-Infinity".data).isOk = true := by decide
example : (PpExt.jsonLoads "[NaN, 1]".data).isOk = true := by decide
-- CPython fidelity: surrogate pairs combine, lone surrogates pass through,
-- malformed hex after a high surrogate's backslash-u peek is an error
example : PpExt.jsonLoads "\"\\ud834\\udd1e\"".data = .ok (.jstr [119070]) := rfl
example : PpExt.jsonLoads "\"\\ud800\"".data = .ok (.jstr [55296]) := rfl
example : PpExt.jsonLoads "\"\\udc00x\"".data = .ok (.jstr [56320, 120]) := rfl
example : PpExt.jsonLoads "\"\\ud800\\ud7ff\"".data = .ok (.jstr [55296, 55295]) := rfl
example : (PpExt.jsonLoads "\"\\ud800\\uZZZZ\"".data).isOk = false := by decide
open PpExt in
example :
    (do
      let m ← parse_mods_from_data (.vstr "\x7b\"mods\":[\x7b\"acronym\":\"HR\"\x7d,\x7b\"acronym\":\"DT\"\x7d]\x7d".data)
      normalize_mods m) = Except.ok (codes "DT,HR".data, some (codes "DT".data)) := by decide
open PpExt in
example :
    (do
      let m ← parse_mods_from_data (.vstr "\x7b\"mods\":[\x7b\"acronym\":\"DT\"\x7d,\x7b\"acronym\":\"DT\"\x7d]\x7d".data)
      normalize_mods m) = Except.ok (codes "DT,DT".data, some (codes "DT".data)) := by decide
open PpExt in
example : pyErrOf (parse_mods_from_data (.vstr "[1]".data)) = some .attributeError := by decide
-- a data value parsing to the float NaN (accepted by json.loads) raises
-- AttributeError; a data value with a raw control character in a string
-- literal fails the parse and yields the empty derived pair
open PpExt in
example : pyErrOf (parse_mods_from_data (.vstr "NaN".data)) = some .attributeError := by
  decide
open PpExt in
example :
    modsKeyOfData (.vstr ['"', 'a', '\t', 'b', '"']) = .ok ([], none) := by decide
open PpExt in
example :
    (do
      let m ← parse_mods_from_data (.vstr "not json".data)
      normalize_mods m) = Except.ok ([], none) := by decide
-- a surrogate-pair escape decodes to one astral code point in the key
open PpExt in
example :
    modsKeyOfData
        (.vstr "\x7b\"mods\":[\x7b\"acronym\":\"\\ud834\\udd1e\"\x7d]\x7d".data)
      = .ok ([119070], none) := by decide

-- writer sanity: the spec's S5 scenario
open PpExt in
example :
    (runWriter 500000 2500 none
      [⟨1000, [("id".data, "int64".data)]⟩, ⟨1000, [("id".data, "int64".data)]⟩,
       ⟨1000, [("id".data, "int64".data)]⟩]).2
    = { files := [⟨2500, [1000, 1000, 500]⟩, ⟨500, [500]⟩], totalRows := 3000
        schemaFields := [("id".data, "int64".data)] } := by decide
open PpExt in
example :
    (runWriter 2 5 none [⟨7, []⟩]).2
    = { files := [⟨5, [2, 2, 1]⟩, ⟨2, [2]⟩], totalRows := 7, schemaFields := [] } := by
  decide
-- retry sanity
open PpExt in
example :
    retry_with_backoff (E := Nat) (A := Nat) (fun _ => .error 7) 1 1 2
    = { calls := 2, delays := [1], outcome := .error 7 } := by
  decide
open PpExt in
example :
    retry_with_backoff (E := Nat) (A := Nat) (fun i => if i = 2 then .ok 9 else .error i) 5 1 3
    = { calls := 3, delays := [1, 3], outcome := .ok 9 } := by
  norm_num [retry_with_backoff, retryLoop]

-- driver sanity: the spec's S1 statement, with `data` as the last column
set_option maxRecDepth 10000 in
open PpExt in
example :
    parse_sql_file "scores".data 100000 none
      ["INSERT INTO scores (id,user_id,beatmap_id,pp,playmode,data) VALUES (1,101,201,500,0,'\x7b\"mods\":[\x7b\"acronym\":\"HR\"\x7d,\x7b\"acronym\":\"DT\"\x7d]\x7d');".data]
    = .ok [[.vint 1, .vint 101, .vint 201, .vint 500, .vint 0,
            .vstr "\x7b\"mods\":[\x7b\"acronym\":\"HR\"\x7d,\x7b\"acronym\":\"DT\"\x7d]\x7d".data,
            .vstr "DT,HR".data, .vstr "DT".data]] := by decide
set_option maxRecDepth 10000 in
open PpExt in
example :
    parse_sql_file_fast "scores".data none
      ["INSERT INTO scores (id,user_id,beatmap_id,pp,playmode,data) VALUES (1,101,201,500,0,'\x7b\"mods\":[\x7b\"acronym\":\"HR\"\x7d,\x7b\"acronym\":\"DT\"\x7d]\x7d');".data]
    = .ok [[.vint 1, .vint 101, .vint 201, .vint 500, .vint 0,
            .vstr "\x7b\"mods\":[\x7b\"acronym\":\"HR\"\x7d,\x7b\"acronym\":\"DT\"\x7d]\x7d".data,
            .vstr "".data, .vnull]] := by decide
example : PpExt.splitOnChar '\n' "a\nb".data = ["a".data, "b".data] := by decide

-- state machine sanity, mirroring test_sql_parser.py state tests
open PpExt in
example :
    (feed (initParser "scores".data)
      "INSERT INTO `scores` (`id`, `data`) VALUES".data).state = .READ_VALUES := by
  decide
open PpExt in
example :
    (feed (initParser "scores".data)
      "INSERT INTO `scores` (`id`, `data`) VALUES (1, 'test')".data).state = .READ_ROW := by
  decide
open PpExt in
example :
    (feed (initParser "scores".data)
      "INSERT INTO `scores` (`id`, `data`) VALUES (1,".data).state = .READ_FIELD := by
  decide
open PpExt in
example :
    let st := feed (initParser "scores".data)
      "INSERT INTO `scores` (`id`, `data`) VALUES (1, 'test');".data
    st.state = .SEARCH_INSERT ∧ st.rows = [["1".data, "'test'".data]] ∧
      st.columns = ["id".data, "data".data] := by
  decide
open PpExt in
example :
    (feed (initParser "scores".data)
      "  INSERT   INTO   `scores`  (`id`)  VALUES  (1)  ;  ".data).state = .SEARCH_INSERT := by
  decide
open PpExt in
example :
    let st := feed (initParser "scores".data)
      "-- This is a comment\nINSERT INTO `scores` (`id`, `data`) VALUES\n/* Multi-line\n   comment */\n(1, 'test');".data
    st.state = .SEARCH_INSERT ∧ st.rows = [["1".data, "'test'".data]] := by
  decide
open PpExt in
example :  -- truncated input: first tuple kept, partial discarded
    let st := feed (initParser "t".data) "INSERT INTO t VALUES (1,2),(3,".data
    st.rows = [["1".data, "2".data]] ∧ st.state = .READ_FIELD := by
  decide

/-! # Claims

One theorem per claim of the specification review, with counterexamples
where the claim fails on the code. -/

open PpExt

set_option maxRecDepth 10000 in
/-- C1: the bulk-mode regex scanner and the byte-at-a-time scanner are
required to emit indistinguishable output on well-formed single-line input.
They do not: on the specification's own scenario S1 (one `INSERT` with
columns `(id, user_id, beatmap_id, pp, playmode, data)`), the byte-at-a-time
path derives `mods_key = "DT,HR"`, `speed_mod = "DT"` from the `data`
column, while the bulk scanner reads `data` at the fixed offset `-3` from
the tuple end (sql_parser_fast.py:191), lands on `pp`, and emits
`mods_key = ""`, `speed_mod = None`. -/
theorem C1_bulk_vs_byte_scan_disagree_on_S1 :
    parse_sql_file "scores".data 100000 none
      ["INSERT INTO scores (id,user_id,beatmap_id,pp,playmode,data) VALUES (1,101,201,500,0,'\x7b\"mods\":[\x7b\"acronym\":\"HR\"\x7d,\x7b\"acronym\":\"DT\"\x7d]\x7d');".data]
      = .ok [[.vint 1, .vint 101, .vint 201, .vint 500, .vint 0,
              .vstr "\x7b\"mods\":[\x7b\"acronym\":\"HR\"\x7d,\x7b\"acronym\":\"DT\"\x7d]\x7d".data,
              .vstr "DT,HR".data, .vstr "DT".data]] ∧
    parse_sql_file_fast "scores".data none
      ["INSERT INTO scores (id,user_id,beatmap_id,pp,playmode,data) VALUES (1,101,201,500,0,'\x7b\"mods\":[\x7b\"acronym\":\"HR\"\x7d,\x7b\"acronym\":\"DT\"\x7d]\x7d');".data]
      = .ok [[.vint 1, .vint 101, .vint 201, .vint 500, .vint 0,
              .vstr "\x7b\"mods\":[\x7b\"acronym\":\"HR\"\x7d,\x7b\"acronym\":\"DT\"\x7d]\x7d".data,
              .vstr "".data, .vnull]] ∧
    ([[Value.vint 1, .vint 101, .vint 201, .vint 500, .vint 0,
       .vstr "\x7b\"mods\":[\x7b\"acronym\":\"HR\"\x7d,\x7b\"acronym\":\"DT\"\x7d]\x7d".data,
       .vstr "DT,HR".data, .vstr "DT".data]] ≠
     [[Value.vint 1, .vint 101, .vint 201, .vint 500, .vint 0,
       .vstr "\x7b\"mods\":[\x7b\"acronym\":\"HR\"\x7d,\x7b\"acronym\":\"DT\"\x7d]\x7d".data,
       .vstr "".data, .vnull]]) := by
  refine ⟨by decide, by decide, by decide⟩

/-- C9: on input truncated by EOF in the middle of a field of a targeted
INSERT statement, the scanner state machine (`SqlParser.feed`) keeps the
earlier complete tuple in `rows`, holds the partial tuple only in
`current_row`/`buffer` (never emitted), and completes without error — the
machine is total.  (The claim fails only above the scanner:
`parse_sql_file` itself crashes with `NameError` because `sql_parser.py`
never imports `time`; see RESULTS.) -/
theorem C9_scanner_discards_partial_row :
    (feed (initParser "scores".data)
        "INSERT INTO scores VALUES (1,2),(3,".data).rows
      = [["1".data, "2".data]] ∧
    (feed (initParser "scores".data)
        "INSERT INTO scores VALUES (1,2),(3,".data).currentRow = ["3".data] ∧
    (feed (initParser "scores".data)
        "INSERT INTO scores VALUES (1,2),(3,".data).state = .READ_FIELD := by
  refine ⟨by decide, by decide, by decide⟩

/-- C2 counterexample: the claim says `mods_key` joins the sorted UNIQUE
acronyms and is empty whenever `data` is not a valid JSON object.  The code
keeps duplicates — a `data` with two `DT` records yields `"DT,DT"`, not
`"DT"` — and a value that parses as JSON but is not an object (here the
array `[1]`) raises `AttributeError` instead of yielding `""`. -/
theorem C2_counterexample :
    modsKeyOfData (.vstr "\x7b\"mods\":[\x7b\"acronym\":\"DT\"\x7d,\x7b\"acronym\":\"DT\"\x7d]\x7d".data)
      = .ok (codes "DT,DT".data, some (codes "DT".data)) ∧
    codes "DT,DT".data ≠ codes "DT".data ∧
    pyErrOf (parse_mods_from_data (.vstr "[1]".data)) = some .attributeError := by
  refine ⟨by decide, by decide, by decide⟩

/-- C3 counterexample: the claim says a backslash immediately before the
delimiter unescapes it.  `parse_value` has no backslash handling: the
lexeme `'a\''` (quote, a, backslash, quote, quote) keeps its backslash and
yields `a\'`, not the `a'` the claim's rule would produce. -/
theorem C3_counterexample :
    parse_value ['\'', 'a', '\\', '\'', '\''] = .vstr ['a', '\\', '\''] ∧
    Value.vstr ['a', '\\', '\''] ≠ .vstr ['a', '\''] := by
  refine ⟨by decide, by decide⟩

/-- C6 counterexample: with `max_retries = 1` and an always-failing
callable, `retry_with_backoff` calls the callable twice
(`for attempt in range(max_retries + 1)`), so "at most max_retries
attempts" fails. -/
theorem C6_counterexample :
    (retry_with_backoff (E := Nat) (A := Nat) (fun _ => .error 0) 1 1 2).calls = 2 ∧
    ¬ (2 ≤ 1) := by
  refine ⟨by decide, by decide⟩

/-- C8 counterexample: a writer constructed WITH a schema that never
receives a batch emits a manifest whose `schema.fields` is that schema's
field list, not empty (`_generate_manifest`'s `elif self.schema:` branch),
refuting the claim's "empty schema.fields" clause. -/
theorem C8_counterexample :
    (runWriter 500000 2000000 (some [("id".data, "int64".data)]) []).2
      = { files := [], totalRows := 0
          schemaFields := [("id".data, "int64".data)] } ∧
    ([(("id".data : List Char), ("int64".data : List Char))] : Schema) ≠ [] := by
  refine ⟨by decide, by decide⟩

/-- C4 counterexample: the staging projection keeps `playmode` — a column
outside the claimed eight-column set — so "keeping exactly … and no others"
fails. -/
theorem C4_counterexample :
    (create_stg_scores
        [[("id".data, Value.vint 1), ("user_id".data, .vint 2),
          ("beatmap_id".data, .vint 3), ("score".data, .vint 4),
          ("pp".data, .vint 5), ("playmode".data, .vint 0),
          ("data".data, .vnull), ("mods_key".data, .vstr []),
          ("speed_mod".data, .vnull)]]).map (fun row => row.map Prod.fst)
      = [stgSelectCols] ∧
    "playmode".data ∈ stgSelectCols ∧
    "playmode".data ∉ claimedStgCols := by
  refine ⟨by decide, by decide, by decide⟩

/-- C4 amended: `stg_scores` equals the projection of `raw_scores` to the
rows whose playmode equals zero, keeping exactly the columns
`{id, user_id, beatmap_id, score, pp, playmode, data, mods_key,
speed_mod}` — the claimed eight plus `playmode` — and no others. -/
theorem C4_stg_projection_amended (raw : List DbRow) :
    create_stg_scores raw = specStgProjection raw ∧
    ∀ row ∈ create_stg_scores raw, row.map Prod.fst = stgSelectCols := by
  constructor
  · rfl
  · intro row hrow
    unfold create_stg_scores at hrow
    obtain ⟨r, -, rfl⟩ := List.mem_map.mp hrow
    simp [stgSelectCols]

/-- C4 witness: the amended projection law applied to a concrete one-row
`raw_scores`. -/
theorem C4_stg_projection_witness :
    ([("id".data, Value.vint 1), ("user_id".data, .vint 2),
      ("beatmap_id".data, .vint 3), ("score".data, .vint 4),
      ("pp".data, .vint 5), ("playmode".data, .vint 0),
      ("data".data, .vnull), ("mods_key".data, .vstr []),
      ("speed_mod".data, .vnull)] : DbRow).map Prod.fst = stgSelectCols :=
  (C4_stg_projection_amended
    [[("id".data, Value.vint 1), ("user_id".data, .vint 2),
      ("beatmap_id".data, .vint 3), ("score".data, .vint 4),
      ("pp".data, .vint 5), ("playmode".data, .vint 0),
      ("data".data, .vnull), ("mods_key".data, .vstr []),
      ("speed_mod".data, .vnull)]]).2 _ (by decide)

/-- C5 counterexample: the manifest loop records the five table names only;
the two lookup structures — which the claim counts among the seven
artifacts — have no entry. -/
theorem C5_counterexample :
    (run_full_pipeline_manifest (fun _ => some 1)).map Prod.fst = pipelineTableNames ∧
    pipelineTableNames.length = 5 ∧
    claimedSevenArtifacts.length = 7 ∧
    "idx_mart_best_scores_beatmap_lookup".data ∈ claimedSevenArtifacts ∧
    "idx_mart_best_scores_beatmap_lookup".data ∉
      (run_full_pipeline_manifest (fun _ => some 1)).map Prod.fst := by
  refine ⟨by decide, by decide, by decide, by decide, by decide⟩

/-- C5 amended: whatever the database's row counts, the manifest records an
entry for each of the five tables, in order, holding the table's row count
or 0 when counting fails (missing table). -/
theorem C5_manifest_amended (count : List Char → Option Nat) :
    (run_full_pipeline_manifest count).map Prod.fst = pipelineTableNames ∧
    ∀ t ∈ pipelineTableNames,
      (run_full_pipeline_manifest count).lookup t = some ((count t).getD 0) := by
  constructor
  · simp only [run_full_pipeline_manifest, List.map_map]
    exact List.map_id _ ▸ rfl
  · intro t ht
    fin_cases ht <;> rfl

/-- C5 witness: the amended manifest law at a concrete oracle with every
table missing. -/
theorem C5_manifest_witness :
    (run_full_pipeline_manifest (fun _ => none)).lookup "stg_scores".data = some 0 :=
  (C5_manifest_amended (fun _ => none)).2 _ (by decide)

/-- C3 amended: for every lexeme, `parse_value` never fails (it is a total
function) and classifies in the 4.A order with the backslash clause
removed: empty or case-insensitive NULL yields null; same ASCII quote
character at both ends yields the interior with doubled delimiters
collapsed (backslashes are kept literally); otherwise a Python int literal,
then a Python float literal, then the identity string — i.e.
`parse_value` coincides with the clause-by-clause spec tokenizer. -/
theorem C3_tokenizer_amended (s : List Char) :
    parse_value s = specValueTokenizer s := by
  unfold parse_value specValueTokenizer
  cases hps : pyStrip s with
  | nil => rfl
  | cons c rest =>
    cases hl : (c :: rest).getLast? with
    | none => simp at hl
    | some l =>
      have hpre : ∀ q : Char, isPrefixOfB [q] (c :: rest) = decide (c = q) := by
        intro q
        simp [isPrefixOfB, eq_comm]
      simp only [List.head?_cons, List.isEmpty_cons, List.headI, hl, hpre,
        Bool.false_or]
      have hq :
          ((decide (c = '\'') && decide (some l = some '\'') : Bool) ||
            (decide (c = '"') && decide (some l = some '"'))) =
          ((decide (c = l) && (decide (c = '\'') || decide (c = '"')))) := by
        by_cases h1 : c = '\'' <;> by_cases h2 : c = '"' <;> by_cases h3 : c = l <;>
          by_cases h4 : l = '\'' <;> by_cases h5 : l = '"' <;> simp_all
      rw [hq]
      simp

/-- The retry loop makes at most `att + rem` calls when entered at attempt
number `att` with `rem` attempts remaining. -/
theorem retryLoop_calls_le {E A : Type} [Inhabited E] (f : Nat → Except E A)
    (factor : ℚ) :
    ∀ rem att d acc, (retryLoop f factor rem att d acc).calls ≤ att + rem := by
  intro rem
  induction rem with
  | zero => intro att d acc; simp [retryLoop]
  | succ r ih =>
    intro att d acc
    simp only [retryLoop]
    cases f att with
    | ok a => simp
    | error e =>
      by_cases hr : r = 0
      · subst hr; simp
      · simp only [hr, if_false]
        have := ih (att + 1) (d * factor) (d :: acc)
        omega

/-- The delays slept by the retry loop follow the geometric law: if the
delays so far are `d0·factor^0 … d0·factor^(att-1)` and the current delay is
`d0·factor^att`, every delay in the final trace is `d0·factor^i` for its
index `i`. -/
theorem retryLoop_delays {E A : Type} [Inhabited E] (f : Nat → Except E A)
    (factor d0 : ℚ) :
    ∀ rem att acc, acc.reverse = (List.range att).map (fun i => d0 * factor ^ i) →
      ∃ k, (retryLoop f factor rem att (d0 * factor ^ att) acc).delays
            = (List.range k).map (fun i => d0 * factor ^ i) := by
  intro rem
  induction rem with
  | zero => intro att acc hacc; exact ⟨att, by simpa [retryLoop] using hacc⟩
  | succ r ih =>
    intro att acc hacc
    simp only [retryLoop]
    cases f att with
    | ok a => exact ⟨att, by simpa using hacc⟩
    | error e =>
      by_cases hr : r = 0
      · subst hr; exact ⟨att, by simpa using hacc⟩
      · simp only [hr, if_false]
        have hacc' : (d0 * factor ^ att :: acc).reverse
            = (List.range (att + 1)).map (fun i => d0 * factor ^ i) := by
          simp [List.range_succ, hacc]
        have heq : d0 * factor ^ att * factor = d0 * factor ^ (att + 1) := by ring
        rw [heq]
        exact ih (att + 1) _ hacc'

/-- If every attempt in the window fails, the retry loop re-raises the last
failure and makes exactly `att + rem` calls. -/
theorem retryLoop_allfail {E A : Type} [Inhabited E] (f : Nat → Except E A)
    (factor : ℚ) (es : Nat → E) :
    ∀ rem att d acc, 1 ≤ rem →
      (∀ i, att ≤ i → i < att + rem → f i = .error (es i)) →
      (retryLoop f factor rem att d acc).outcome = .error (es (att + rem - 1)) ∧
      (retryLoop f factor rem att d acc).calls = att + rem := by
  intro rem
  induction rem with
  | zero => intro att d acc h; omega
  | succ r ih =>
    intro att d acc _ hf
    simp only [retryLoop]
    rw [hf att (le_refl att) (by omega)]
    by_cases hr : r = 0
    · subst hr; simp
    · simp only [hr, if_false]
      have := ih (att + 1) (d * factor) (d :: acc) (by omega)
        (fun i h1 h2 => hf i (by omega) (by omega))
      have hidx : att + 1 + r - 1 = att + (r + 1) - 1 := by omega
      rw [hidx] at this
      have hc : att + 1 + r = att + (r + 1) := by omega
      rw [hc] at this
      exact this

/-- C6 amended: `retry_with_backoff` makes at most `max_retries + 1` calls
(one initial attempt plus up to `max_retries` retries); the delay slept
before the retry following failed attempt `n` (0-indexed) is exactly
`initial · factor^n`; and when every attempt fails, the outcome is the
failure of the last attempt, after exactly `max_retries + 1` calls. -/
theorem C6_retry_amended {E A : Type} [Inhabited E] (f : Nat → Except E A)
    (maxRetries : Nat) (initialDelay factor : ℚ) :
    (retry_with_backoff f maxRetries initialDelay factor).calls ≤ maxRetries + 1 ∧
    (∀ n, n < (retry_with_backoff f maxRetries initialDelay factor).delays.length →
      (retry_with_backoff f maxRetries initialDelay factor).delays.getD n 0
        = initialDelay * factor ^ n) ∧
    (∀ es : Nat → E, (∀ i, i ≤ maxRetries → f i = .error (es i)) →
      (retry_with_backoff f maxRetries initialDelay factor).outcome
          = .error (es maxRetries) ∧
      (retry_with_backoff f maxRetries initialDelay factor).calls
          = maxRetries + 1) := by
  refine ⟨?_, ?_, ?_⟩
  · simpa using retryLoop_calls_le f factor (maxRetries + 1) 0 initialDelay []
  · intro n hn
    have h0 : ([] : List ℚ).reverse
        = (List.range 0).map (fun i => initialDelay * factor ^ i) := by simp
    have hd : initialDelay = initialDelay * factor ^ 0 := by ring
    obtain ⟨k, hk⟩ := by
      have := retryLoop_delays f factor initialDelay (maxRetries + 1) 0 [] h0
      rwa [← hd] at this
    unfold retry_with_backoff at hn ⊢
    rw [hk] at hn ⊢
    rw [List.getD_eq_getElem?_getD]
    simp only [List.length_map, List.length_range] at hn
    simp [List.getElem?_map, List.getElem?_range, hn]
  · intro es hf
    have := retryLoop_allfail f factor es (maxRetries + 1) 0 initialDelay []
      (by omega) (fun i h1 h2 => hf i (by omega))
    simpa using this

/-- C6 witness: the amended retry law at `max_retries = 1`,
`initial = 1`, `factor = 2`, with an always-failing callable. -/
theorem C6_retry_witness :
    (retry_with_backoff (E := Nat) (A := Nat) (fun _ => .error 3) 1 1 2).calls ≤ 2 ∧
    (retry_with_backoff (E := Nat) (A := Nat) (fun _ => .error 3) 1 1 2).delays.getD 0 0
      = 1 * 2 ^ 0 ∧
    (retry_with_backoff (E := Nat) (A := Nat) (fun _ => .error 3) 1 1 2).outcome
      = .error 3 := by
  have h := C6_retry_amended (E := Nat) (A := Nat) (fun _ => .error 3) 1 1 2
  refine ⟨h.1, h.2.1 0 ?_, (h.2.2 (fun _ => 3) (fun i _ => rfl)).1⟩
  simp [retry_with_backoff, retryLoop]

/-- `objGet` finds a value exactly when `objHasKey` holds. -/
theorem objGet_isSome_eq (k : List Nat) :
    ∀ (kvs : List (List Nat × Json)) (acc : Option Json),
      (kvs.foldl (fun acc p => if p.1 = k then some p.2 else acc) acc).isSome
        = (acc.isSome || kvs.any (fun p => p.1 == k)) := by
  intro kvs
  induction kvs with
  | nil => intro acc; simp
  | cons p rest ih =>
    intro acc
    simp only [List.foldl_cons, List.any_cons, ih]
    by_cases hp : p.1 = k
    · simp [hp]
    · have hpb : (p.1 == k) = false := beq_eq_false_iff_ne.mpr hp
      simp [hp, hpb]

theorem objHasKey_iff (kvs : List (List Nat × Json)) (k : List Nat) :
    objHasKey kvs k = true ↔ ∃ v, objGet kvs k = some v := by
  unfold objHasKey objGet
  have h := objGet_isSome_eq k kvs none
  simp only [Option.isSome_none, Bool.false_or] at h
  rw [← h]
  exact Option.isSome_iff_exists

set_option synthInstance.maxHeartbeats 400000 in
/-- On a list of record objects whose `acronym` values are all strings, the
comprehension collects exactly the spec's acronym multiset (as JSON
strings), in order. -/
theorem collectAcronyms_of_records :
    ∀ marr : List Json,
      (∀ m ∈ marr, ∃ kvs, m = .jobj kvs) →
      (∀ mkvs j, Json.jobj mkvs ∈ marr →
        objGet mkvs (codes ['a','c','r','o','n','y','m']) = some j → ∃ a, j = .jstr a) →
      collectAcronyms marr = .ok ((specAcronyms marr).map .jstr) := by
  intro marr
  induction marr with
  | nil => intro _ _; rfl
  | cons m rest ih =>
    intro hobj hstr
    obtain ⟨mkvs, rfl⟩ := hobj m (by simp)
    have ihr := ih (fun x hx => hobj x (List.mem_cons_of_mem _ hx))
      (fun kvs j hj hg => hstr kvs j (List.mem_cons_of_mem _ hj) hg)
    by_cases hk : objHasKey mkvs (codes ['a','c','r','o','n','y','m']) = true
    · obtain ⟨v, hv⟩ := (objHasKey_iff _ _).mp hk
      obtain ⟨a, rfl⟩ := hstr mkvs v (by simp) hv
      unfold collectAcronyms specAcronyms
      rw [List.filterMap_cons]
      simp only [hk, if_true, hv, ihr]
      unfold specAcronyms at ihr
      simp [ihr, Except.bind]
      rfl
    · have hnone : objGet mkvs (codes ['a','c','r','o','n','y','m']) = none := by
        cases hg : objGet mkvs (codes ['a','c','r','o','n','y','m']) with
        | none => rfl
        | some v => exact absurd ((objHasKey_iff _ _).mpr ⟨v, hg⟩) hk
      unfold collectAcronyms specAcronyms
      rw [List.filterMap_cons]
      simp only [hk, if_false, hnone]
      unfold specAcronyms at ihr
      simp [ihr, Except.bind]
      rfl

theorem allStrings_map_jstr : ∀ l : List (List Nat),
    allStrings (l.map .jstr) = some l := by
  intro l
  induction l with
  | nil => rfl
  | cons s rest ih => simp [allStrings, ih]

/-- The shape `modsKeyOfData` takes on a string cell other than `NULL`:
empty derived pair on a JSON parse failure, the normalizer on the `mods`
member (defaulting to the empty array) for an object, and `AttributeError`
for any other parsed value. -/
theorem modsKeyOfData_vstr (s : List Char) (hns : ¬ s = ['N','U','L','L']) :
    modsKeyOfData (.vstr s)
      = match jsonLoads s with
        | .error _ => .ok ([], none)
        | .ok (.jobj kvs) =>
          normalize_mods ((objGet kvs (codes ['m','o','d','s'])).getD (.jarr []))
        | .ok _ => .error .attributeError := by
  have h1 : parse_mods_from_data (.vstr s)
      = (if s = ['N','U','L','L'] then .ok (.jarr [])
         else match jsonLoads s with
           | .error _ => .ok (.jarr [])
           | .ok (.jobj kvs) =>
             .ok ((objGet kvs (codes ['m','o','d','s'])).getD (.jarr []))
           | .ok _ => .error .attributeError) := rfl
  unfold modsKeyOfData
  rw [h1, if_neg hns]
  cases jsonLoads s with
  | error e => rfl
  | ok j => cases j <;> rfl

/-- `normalize_mods` on a nonempty array whose acronym collection succeeds
with string values: sort, comma-join, tag. -/
theorem normalize_mods_arr (l : List Json) (strs : List (List Nat))
    (h1 : collectAcronyms l = .ok (strs.map .jstr)) (hne : l ≠ []) :
    normalize_mods (.jarr l) =
      .ok (joinWithCode ','.toNat (List.insertionSort (· ≤ ·) strs),
           specSpeedTag (List.insertionSort (· ≤ ·) strs)) := by
  cases l with
  | nil => exact absurd rfl hne
  | cons m rest =>
    have h2 : normalize_mods (.jarr (m :: rest))
        = Except.bind (collectAcronyms (m :: rest))
            (fun acs =>
              match allStrings acs with
              | some strs =>
                Except.ok (joinWithCode ','.toNat (List.insertionSort (· ≤ ·) strs),
                  if (List.insertionSort (· ≤ ·) strs).contains (codes ['D','T'])
                     || (List.insertionSort (· ≤ ·) strs).contains (codes ['N','C'])
                  then some (codes ['D','T'])
                  else if (List.insertionSort (· ≤ ·) strs).contains (codes ['H','T'])
                  then some (codes ['H','T']) else none)
              | none => Except.error .typeError) := rfl
    rw [h2, h1]
    simp only [Except.bind, allStrings_map_jstr]
    rfl

set_option synthInstance.maxHeartbeats 400000 in
/-- C2 amended: for every value of the `data` column, the derived
`mods_key` is the comma-join of the lexicographically sorted acronyms of
the records of the JSON object's `mods` array, WITH DUPLICATES RETAINED
(records lacking an `acronym` field are ignored), paired with the spec's
speed tag; it is the empty string when `data` is null, the literal string
`NULL`, a non-string cell, or not parseable as JSON; and a `data` value
that parses as JSON but is not an object raises `AttributeError` instead of
yielding the empty string. -/
theorem C2_mods_key_amended :
    (modsKeyOfData .vnull = .ok ([], none)) ∧
    (modsKeyOfData (.vstr ['N','U','L','L']) = .ok ([], none)) ∧
    (∀ i : Int, modsKeyOfData (.vint i) = .ok ([], none)) ∧
    (∀ lit, modsKeyOfData (.vfloat lit) = .ok ([], none)) ∧
    (∀ s, ¬ s = ['N','U','L','L'] → (jsonLoads s).isOk = false →
      modsKeyOfData (.vstr s) = .ok ([], none)) ∧
    (∀ s j, ¬ s = ['N','U','L','L'] → jsonLoads s = .ok j →
      (∀ kvs, j ≠ .jobj kvs) →
      modsKeyOfData (.vstr s) = .error .attributeError) ∧
    (∀ s kvs marr, ¬ s = ['N','U','L','L'] → jsonLoads s = .ok (.jobj kvs) →
      (objGet kvs (codes ['m','o','d','s'])).getD (.jarr []) = .jarr marr →
      (∀ m ∈ marr, ∃ mkvs, m = .jobj mkvs) →
      (∀ mkvs j, Json.jobj mkvs ∈ marr →
        objGet mkvs (codes ['a','c','r','o','n','y','m']) = some j → ∃ a, j = .jstr a) →
      ∀ sortedAcs, sortedAcs.Perm (specAcronyms marr) →
        List.Sorted (· ≤ ·) sortedAcs →
        modsKeyOfData (.vstr s)
          = .ok (joinWithCode ','.toNat sortedAcs, specSpeedTag sortedAcs)) := by
  refine ⟨rfl, rfl, fun i => rfl, fun lit => rfl, ?_, ?_, ?_⟩
  · intro s hns hok
    rw [modsKeyOfData_vstr s hns]
    cases hjl : jsonLoads s with
    | error e => rfl
    | ok j => rw [hjl] at hok; simp [Except.isOk, Except.toBool] at hok
  · intro s j hns hjl hnobj
    rw [modsKeyOfData_vstr s hns, hjl]
    cases j with
    | jobj kvs => exact absurd rfl (hnobj kvs)
    | jnull => rfl
    | jbool b => rfl
    | jnum lit => rfl
    | jstr str => rfl
    | jarr l => rfl
  · intro s kvs marr hns hjl hmods hobj hstr sortedAcs hperm hsorted
    rw [modsKeyOfData_vstr s hns, hjl]
    show normalize_mods ((objGet kvs (codes ['m','o','d','s'])).getD (.jarr [])) = _
    rw [hmods]
    cases marr with
    | nil =>
      have hnil : sortedAcs = [] := hperm.eq_nil
      subst hnil
      rfl
    | cons m rest =>
      have hcoll := collectAcronyms_of_records (m :: rest) hobj hstr
      have hsorted2 : List.Sorted (· ≤ ·)
          (List.insertionSort (· ≤ ·) (specAcronyms (m :: rest))) :=
        List.sorted_insertionSort _ _
      have hperm2 : (List.insertionSort (· ≤ ·) (specAcronyms (m :: rest))).Perm
          (specAcronyms (m :: rest)) := List.perm_insertionSort _ _
      have heq : List.insertionSort (· ≤ ·) (specAcronyms (m :: rest)) = sortedAcs :=
        List.eq_of_perm_of_sorted (hperm2.trans hperm.symm) hsorted2 hsorted
      rw [normalize_mods_arr (m :: rest) (specAcronyms (m :: rest)) hcoll (by simp),
        heq]

/-- C2 witness: the amended mods-key law applied to a concrete `data`
value with two `DT` records — duplicates retained, key `"DT,DT"`. -/
theorem C2_mods_key_witness :
    modsKeyOfData (.vstr "\x7b\"mods\":[\x7b\"acronym\":\"DT\"\x7d,\x7b\"acronym\":\"DT\"\x7d]\x7d".data)
      = .ok (codes "DT,DT".data, some (codes "DT".data)) := by
  have h := C2_mods_key_amended.2.2.2.2.2.2
      "\x7b\"mods\":[\x7b\"acronym\":\"DT\"\x7d,\x7b\"acronym\":\"DT\"\x7d]\x7d".data
      [(codes ['m','o','d','s'],
        Json.jarr [.jobj [(codes ['a','c','r','o','n','y','m'], .jstr (codes ['D','T']))],
                   .jobj [(codes ['a','c','r','o','n','y','m'], .jstr (codes ['D','T']))]])]
      [Json.jobj [(codes ['a','c','r','o','n','y','m'], Json.jstr (codes ['D','T']))],
       Json.jobj [(codes ['a','c','r','o','n','y','m'], Json.jstr (codes ['D','T']))]]
      (by decide) rfl rfl
      (by
        intro m hm
        simp only [List.mem_cons, List.not_mem_nil, or_false] at hm
        rcases hm with h1 | h1 <;> exact ⟨_, h1⟩)
      (by
        intro mkvs j hm hg
        simp only [List.mem_cons, List.not_mem_nil, or_false, Json.jobj.injEq] at hm
        rcases hm with h1 | h1 <;> subst h1 <;>
          (injection hg with h2; exact ⟨codes ['D','T'], h2.symm⟩))
      [codes ['D','T'], codes ['D','T']] (List.Perm.refl _) (by decide)
  exact h

/-- Splitting on a newline that follows a newline-free chunk peels off that
chunk. -/
theorem splitOnChar_append_newline (x rest : List Char) (hx : '\n' ∉ x) :
    splitOnChar '\n' (x ++ '\n' :: rest) = x :: splitOnChar '\n' rest := by
  induction x with
  | nil => simp [splitOnChar]
  | cons c cs ih =>
    have hc : ¬ c = '\n' := fun h => hx (h ▸ List.mem_cons_self c cs)
    have hcs : '\n' ∉ cs := fun h => hx (List.mem_cons_of_mem c h)
    simp only [List.cons_append, splitOnChar, if_neg hc]
    rw [show cs.append ('\n' :: rest) = cs ++ '\n' :: rest from rfl, ih hcs]

/-- `splitOnChar` never returns the empty list of pieces. -/
theorem splitOnChar_ne_nil (sep : Char) : ∀ s, splitOnChar sep s ≠ [] := by
  intro s
  cases s with
  | nil => simp [splitOnChar]
  | cons c cs =>
    simp only [splitOnChar]
    by_cases hc : c = sep
    · simp [hc]
    · simp only [if_neg hc]
      cases splitOnChar sep cs <;> simp

/-- The leftmost `--` in `a ++ "--" ++ b` sits exactly at `|a|` when `a`
contains no `--` and does not end in `-`. -/
theorem pyFind_dashdash (b : List Char) :
    ∀ a : List Char, containsSub ['-','-'] a = false → a.getLast? ≠ some '-' →
      pyFind ['-','-'] (a ++ '-' :: '-' :: b) = some a.length := by
  intro a
  induction a with
  | nil =>
    intro _ _
    simp [pyFind, isPrefixOfB]
  | cons c cs ih =>
    intro hna hlast
    have hnc : containsSub ['-','-'] cs = false := by
      simp only [containsSub] at hna
      cases hp : isPrefixOfB ['-','-'] (c :: cs) <;> simp [hp] at hna
      · exact hna
    have hlast' : cs.getLast? ≠ some '-' := by
      cases cs with
      | nil => simp
      | cons d ds =>
        rw [List.getLast?_cons_cons] at hlast
        exact hlast
    have hpre : isPrefixOfB ['-','-'] (c :: (cs ++ '-' :: '-' :: b)) = false := by
      by_cases hcd : c = '-'
      · -- c = '-': the next character must not be '-'
        subst hcd
        cases cs with
        | nil => simp at hlast
        | cons d ds =>
          have hd : ¬ d = '-' := by
            intro hdd
            subst hdd
            simp [containsSub, isPrefixOfB] at hna
          have hd2 : ¬ '-' = d := fun h => hd h.symm
          simp [isPrefixOfB, hd2]
      · have hcd2 : ¬ '-' = c := fun h => hcd h.symm
        simp [isPrefixOfB, hcd2]
    simp only [List.cons_append, pyFind, hpre]
    simp only [List.append_eq]
    rw [ih hnc hlast']
    simp

/-- Line truncation at the first `--`, in the clean position. -/
theorem truncAtDashDash_append (a b : List Char)
    (hna : containsSub ['-','-'] a = false) (hlast : a.getLast? ≠ some '-') :
    truncAtDashDash (a ++ '-' :: '-' :: b) = a := by
  unfold truncAtDashDash
  rw [pyFind_dashdash b a hna hlast]
  exact List.take_left a _

theorem mem_of_isPrefixOfB {c : Char} :
    ∀ needle hay, isPrefixOfB needle hay = true → c ∈ needle → c ∈ hay := by
  intro needle
  induction needle with
  | nil => intro hay _ hc; simp at hc
  | cons n ns ih =>
    intro hay hp hc
    cases hay with
    | nil => simp [isPrefixOfB] at hp
    | cons h hs =>
      simp only [isPrefixOfB, Bool.and_eq_true, decide_eq_true_eq] at hp
      rcases List.mem_cons.mp hc with h1 | h1
      · exact List.mem_cons.mpr (Or.inl (h1.trans hp.1))
      · exact List.mem_cons.mpr (Or.inr (ih hs hp.2 h1))

theorem mem_of_containsSub {c : Char} {needle : List Char} (hc : c ∈ needle) :
    ∀ hay, containsSub needle hay = true → c ∈ hay := by
  intro hay
  induction hay with
  | nil =>
    intro h
    simp only [containsSub] at h
    have := mem_of_isPrefixOfB needle [] h hc
    simp at this
  | cons x xs ih =>
    intro h
    simp only [containsSub, Bool.or_eq_true] at h
    rcases h with h1 | h1
    · exact mem_of_isPrefixOfB _ _ h1 hc
    · exact List.mem_cons_of_mem x (ih h1)

/-- The block-comment loop is the identity on text without `*`. -/
theorem removeBlockComments_of_no_star (s : List Char) (hs : '*' ∉ s) :
    ∀ fuel, removeBlockComments fuel s = s := by
  intro fuel
  cases fuel with
  | zero => rfl
  | succ n =>
    have h1 : containsSub ['/','*'] s = false := by
      cases h : containsSub ['/','*'] s
      · rfl
      · exact absurd (mem_of_containsSub (by simp) s h) hs
    simp [removeBlockComments, h1]

theorem mem_of_mem_joinWithChar {c : Char} (sep : Char) :
    ∀ xs, c ∈ joinWithChar sep xs → c = sep ∨ ∃ x ∈ xs, c ∈ x := by
  intro xs
  induction xs with
  | nil => intro h; simp [joinWithChar] at h
  | cons x xs ih =>
    intro h
    cases xs with
    | nil => exact Or.inr ⟨x, by simp, by simpa [joinWithChar] using h⟩
    | cons y ys =>
      simp only [joinWithChar] at h
      rcases List.mem_append.mp h with h1 | h1
      · exact Or.inr ⟨x, by simp, h1⟩
      · rcases List.mem_cons.mp h1 with h2 | h2
        · exact Or.inl h2
        · rcases ih h2 with h3 | ⟨z, hz1, hz2⟩
          · exact Or.inl h3
          · exact Or.inr ⟨z, List.mem_cons_of_mem x hz1, hz2⟩

theorem mem_of_mem_splitOnChar {c : Char} (sep : Char) :
    ∀ s piece, piece ∈ splitOnChar sep s → c ∈ piece → c ∈ s := by
  intro s
  induction s with
  | nil =>
    intro piece hp hc
    simp [splitOnChar] at hp
    subst hp
    simp at hc
  | cons x xs ih =>
    intro piece hp hc
    simp only [splitOnChar] at hp
    by_cases hx : x = sep
    · rw [if_pos hx] at hp
      rcases List.mem_cons.mp hp with h1 | h1
      · subst h1; simp at hc
      · exact List.mem_cons_of_mem x (ih piece h1 hc)
    · rw [if_neg hx] at hp
      cases hsplit : splitOnChar sep xs with
      | nil => exact absurd hsplit (splitOnChar_ne_nil sep xs)
      | cons r rs =>
        rw [hsplit] at hp
        rcases List.mem_cons.mp hp with h1 | h1
        · subst h1
          rcases List.mem_cons.mp hc with h2 | h2
          · exact List.mem_cons.mpr (Or.inl h2)
          · exact List.mem_cons_of_mem x
              (ih r (hsplit ▸ List.mem_cons_self r rs) h2)
        · exact List.mem_cons_of_mem x (ih piece (hsplit ▸ List.mem_cons_of_mem r h1) hc)

/-- Characters of the line-truncated, rejoined text all come from the
original text (or are the separator). -/
theorem mem_of_mem_truncJoin {c : Char} (s : List Char)
    (h : c ∈ joinWithChar '\n' ((splitOnChar '\n' s).map truncAtDashDash)) :
    c = '\n' ∨ c ∈ s := by
  rcases mem_of_mem_joinWithChar '\n' _ h with h1 | ⟨x, hx1, hx2⟩
  · exact Or.inl h1
  · obtain ⟨piece, hp1, rfl⟩ := List.mem_map.mp hx1
    have hc : c ∈ piece := by
      unfold truncAtDashDash at hx2
      rcases hfind : pyFind ['-','-'] piece with _ | i
      · rw [hfind] at hx2; exact hx2
      · rw [hfind] at hx2; exact List.take_subset i piece hx2
    exact Or.inr (mem_of_mem_splitOnChar '\n' s piece hp1 hc)

/-- Splitting a separator-free text yields the single piece. -/
theorem splitOnChar_of_not_mem (sep : Char) :
    ∀ s : List Char, sep ∉ s → splitOnChar sep s = [s] := by
  intro s
  induction s with
  | nil => intro _; rfl
  | cons c cs ih =>
    intro h
    have hc : ¬ c = sep := fun he => h (he ▸ List.mem_cons_self c cs)
    have hcs : sep ∉ cs := fun hm => h (List.mem_cons_of_mem c hm)
    simp only [splitOnChar, if_neg hc, ih hcs]

/-- `find` misses exactly when containment fails. -/
theorem pyFind_eq_none (needle : List Char) :
    ∀ hay, containsSub needle hay = false → pyFind needle hay = none := by
  intro hay
  induction hay with
  | nil =>
    intro h
    simp only [containsSub] at h
    simp [pyFind, h]
  | cons x xs ih =>
    intro h
    simp only [containsSub] at h
    cases hp : isPrefixOfB needle (x :: xs) <;> rw [hp] at h
    · simp only [Bool.false_or] at h
      simp [pyFind, hp, ih h]
    · simp at h

/-- Line truncation is the identity without a `--`. -/
theorem truncAtDashDash_of_none (t : List Char)
    (h : containsSub ['-','-'] t = false) : truncAtDashDash t = t := by
  unfold truncAtDashDash
  rw [pyFind_eq_none _ t h]

/-- A found occurrence witnesses containment. -/
theorem containsSub_of_pyFind (needle : List Char) :
    ∀ (hay : List Char) (i : Nat),
      pyFind needle hay = some i → containsSub needle hay = true := by
  intro hay
  induction hay with
  | nil =>
    intro i h
    simp only [pyFind] at h
    simp only [containsSub]
    cases hp : isPrefixOfB needle []
    · rw [hp] at h
      simp at h
    · rfl
  | cons x xs ih =>
    intro i h
    simp only [pyFind] at h
    simp only [containsSub]
    cases hp : isPrefixOfB needle (x :: xs)
    · rw [hp] at h
      simp only [Bool.false_eq_true, if_false] at h
      cases ho : pyFind needle xs with
      | none => rw [ho] at h; simp at h
      | some j => simp [hp, ih j ho]
    · simp [hp]

/-- Containment is preserved by prepending text. -/
theorem containsSub_append_right (needle : List Char) :
    ∀ (x y : List Char), containsSub needle y = true →
      containsSub needle (x ++ y) = true := by
  intro x
  induction x with
  | nil => intro y h; simpa using h
  | cons c cs ih =>
    intro y h
    show (isPrefixOfB needle (c :: (cs ++ y)) || containsSub needle (cs ++ y)) = true
    rw [ih y h]
    simp

/-- The leftmost two-character needle `uv` in `a ++ uv ++ tail` sits exactly
at `|a|` when `a` contains no `uv` (and, when `u = v`, does not end in
`u`). -/
theorem pyFind_pair (u v : Char) (tail : List Char) :
    ∀ a : List Char, containsSub [u, v] a = false →
      (u = v → a.getLast? ≠ some u) →
      pyFind [u, v] (a ++ u :: v :: tail) = some a.length := by
  intro a
  induction a with
  | nil =>
    intro _ _
    simp [pyFind, isPrefixOfB]
  | cons c cs ih =>
    intro hna hlast
    have hnc : containsSub [u, v] cs = false := by
      simp only [containsSub] at hna
      cases hp : isPrefixOfB [u, v] (c :: cs) <;> simp [hp] at hna
      · exact hna
    have hlast' : u = v → cs.getLast? ≠ some u := by
      intro huv
      cases cs with
      | nil => simp
      | cons d ds =>
        have hl := hlast huv
        rw [List.getLast?_cons_cons] at hl
        exact hl
    have hpre : isPrefixOfB [u, v] (c :: (cs ++ u :: v :: tail)) = false := by
      by_cases hcd : c = u
      · subst hcd
        cases cs with
        | nil =>
          by_cases huv : c = v
          · exact absurd (by simp) (hlast huv)
          · have hvu : ¬ (v = c) := fun hvu => huv hvu.symm
            simp [isPrefixOfB, hvu]
        | cons d ds =>
          have hd : ¬ d = v := by
            intro hdd
            subst hdd
            simp [containsSub, isPrefixOfB] at hna
          have hd2 : ¬ v = d := fun hvd => hd hvd.symm
          simp [isPrefixOfB, hd2]
      · have hcd2 : ¬ u = c := fun huc => hcd huc.symm
        simp [isPrefixOfB, hcd2]
    simp only [List.cons_append, pyFind, hpre]
    simp only [List.append_eq]
    rw [ih hnc hlast']
    simp

/-- Unfolding lemma for one iteration of the block-comment loop. -/
theorem removeBlockComments_succ (fuel : Nat) (s : List Char) :
    removeBlockComments (fuel + 1) s =
      if containsSub ['/', '*'] s && containsSub ['*', '/'] s then
        match pyFind ['/', '*'] s with
        | some st =>
          (match pyFind ['*', '/'] (s.drop st) with
           | some j => removeBlockComments fuel (s.take st ++ ' ' :: s.drop (st + j + 2))
           | none => removeBlockComments fuel (s.take st ++ ' ' :: s.drop 1))
        | none => s
      else s := rfl

/-- C10: in the byte-oriented scanner, comment removal is applied textually
before any string-literal tracking.  First conjunct: `_remove_comments`
deletes from the first `--` of a line to end-of-line unconditionally — the
hypotheses locate the first `--` and keep the block-comment loop inert, and
none of them mention quote context, so the deletion applies inside string
literals too.  Second conjunct: `_remove_comments` deletes a `/* ... */`
span (replacing it by one space) unconditionally — the hypotheses only
locate the first `/*` and the first `*/` after it and keep the other
passes inert, so this deletion too applies inside string literals.  Third
and fourth conjuncts, end to end: feeding an INSERT whose quoted `data`
value contains `--` (resp. `/* ... */`) emits the row with the value
truncated at the `--` (resp. with the span replaced by a space). -/
theorem C10_comment_removal_inside_strings :
    (∀ a b r : List Char,
      containsSub ['-','-'] a = false → a.getLast? ≠ some '-' →
      '\n' ∉ a → '\n' ∉ b → '*' ∉ a → '*' ∉ r →
      removeComments ((a ++ '-' :: '-' :: b) ++ '\n' :: r)
        = a ++ '\n' :: removeComments r) ∧
    (∀ a b c : List Char,
      '*' ∉ a → '*' ∉ c →
      containsSub ['*','/'] ('*' :: b) = false →
      containsSub ['-','-'] (a ++ '/' :: '*' :: b ++ '*' :: '/' :: c) = false →
      '\n' ∉ (a ++ '/' :: '*' :: b ++ '*' :: '/' :: c) →
      removeComments (a ++ '/' :: '*' :: b ++ '*' :: '/' :: c) = a ++ ' ' :: c) ∧
    (feed (initParser ['t'])
        "INSERT INTO t VALUES (1,'ab--cd\nef');".data).rows
      = [[['1'], ['\'','a','b','\n','e','f','\'']]] ∧
    (feed (initParser ['t'])
        "INSERT INTO t VALUES (1,'ab/*x*/cd');".data).rows
      = [[['1'], ['\'','a','b',' ','c','d','\'']]] := by
  refine ⟨?_, ?_, ?_, ?_⟩
  · intro a b r hna hlast hnlA hnlB hsA hsR
    unfold removeComments
    have hnl1 : '\n' ∉ a ++ '-' :: '-' :: b := by
      intro h
      rcases List.mem_append.mp h with h | h
      · exact hnlA h
      · rcases List.mem_cons.mp h with h | h
        · exact absurd h (by decide)
        · rcases List.mem_cons.mp h with h | h
          · exact absurd h (by decide)
          · exact hnlB h
    rw [splitOnChar_append_newline _ r hnl1]
    simp only [List.map_cons]
    rw [truncAtDashDash_append a b hna hlast]
    have hjoin : joinWithChar '\n' (a :: (splitOnChar '\n' r).map truncAtDashDash)
        = a ++ '\n' :: joinWithChar '\n' ((splitOnChar '\n' r).map truncAtDashDash) := by
      cases hsp : (splitOnChar '\n' r).map truncAtDashDash with
      | nil => exact absurd (List.map_eq_nil_iff.mp hsp) (splitOnChar_ne_nil '\n' r)
      | cons x xs => rfl
    rw [hjoin]
    have hstar2 : '*' ∉ joinWithChar '\n' ((splitOnChar '\n' r).map truncAtDashDash) := by
      intro h
      rcases mem_of_mem_truncJoin r h with h1 | h1
      · exact absurd h1 (by decide)
      · exact hsR h1
    have hstar : '*' ∉ a ++ '\n' ::
        joinWithChar '\n' ((splitOnChar '\n' r).map truncAtDashDash) := by
      intro h
      rcases List.mem_append.mp h with h | h
      · exact hsA h
      · rcases List.mem_cons.mp h with h | h
        · exact absurd h (by decide)
        · exact hstar2 h
    rw [removeBlockComments_of_no_star _ hstar _,
      removeBlockComments_of_no_star _ hstar2 _]
  · intro a b c hsa hsc hb hdd hnl
    have hL : a ++ '/' :: '*' :: b ++ '*' :: '/' :: c
        = a ++ '/' :: '*' :: (b ++ '*' :: '/' :: c) := by simp
    rw [hL] at hdd hnl
    rw [hL]
    have hres : joinWithChar '\n'
        ((splitOnChar '\n' (a ++ '/' :: '*' :: (b ++ '*' :: '/' :: c))).map
          truncAtDashDash)
        = a ++ '/' :: '*' :: (b ++ '*' :: '/' :: c) := by
      rw [splitOnChar_of_not_mem _ _ hnl]
      simp only [List.map_cons, List.map_nil]
      rw [truncAtDashDash_of_none _ hdd]
      rfl
    have h0 : removeComments (a ++ '/' :: '*' :: (b ++ '*' :: '/' :: c))
        = removeBlockComments
            ((a ++ '/' :: '*' :: (b ++ '*' :: '/' :: c)).length + 1)
            (a ++ '/' :: '*' :: (b ++ '*' :: '/' :: c)) := by
      simp only [removeComments]
      rw [hres]
    rw [h0, removeBlockComments_succ]
    have hddA : containsSub ['/','*'] a = false := by
      cases hq : containsSub ['/','*'] a
      · rfl
      · exact absurd (mem_of_containsSub (by simp) a hq) hsa
    have hfind1 : pyFind ['/','*'] (a ++ '/' :: '*' :: (b ++ '*' :: '/' :: c))
        = some a.length :=
      pyFind_pair '/' '*' (b ++ '*' :: '/' :: c) a hddA (fun h => absurd h (by decide))
    have hc1 : containsSub ['/','*'] (a ++ '/' :: '*' :: (b ++ '*' :: '/' :: c))
        = true :=
      containsSub_of_pyFind _ _ _ hfind1
    have hc2 : containsSub ['*','/'] (a ++ '/' :: '*' :: (b ++ '*' :: '/' :: c))
        = true := by
      have hteq : a ++ '/' :: '*' :: (b ++ '*' :: '/' :: c)
          = (a ++ '/' :: '*' :: b) ++ '*' :: '/' :: c := by simp
      rw [hteq]
      exact containsSub_append_right _ _ _ (by simp [containsSub, isPrefixOfB])
    have hdrop1 : (a ++ '/' :: '*' :: (b ++ '*' :: '/' :: c)).drop a.length
        = '/' :: '*' :: (b ++ '*' :: '/' :: c) := List.drop_left a _
    have hbb2 : containsSub ['*','/'] ('/' :: '*' :: b) = false := by
      show (isPrefixOfB ['*','/'] ('/' :: '*' :: b)
        || containsSub ['*','/'] ('*' :: b)) = false
      rw [hb]
      simp [isPrefixOfB]
    have hfind2 : pyFind ['*','/'] ('/' :: '*' :: (b ++ '*' :: '/' :: c))
        = some ('/' :: '*' :: b).length := by
      have hteq2 : ('/' :: '*' :: b) ++ '*' :: '/' :: c
          = '/' :: '*' :: (b ++ '*' :: '/' :: c) := by simp
      rw [← hteq2]
      exact pyFind_pair '*' '/' c ('/' :: '*' :: b) hbb2 (fun h => absurd h (by decide))
    simp only [hc1, hc2, Bool.and_self, if_true, hfind1, hdrop1, hfind2]
    have htake : (a ++ '/' :: '*' :: (b ++ '*' :: '/' :: c)).take a.length = a :=
      List.take_left a _
    have hdrop2 : (a ++ '/' :: '*' :: (b ++ '*' :: '/' :: c)).drop
        (a.length + ('/' :: '*' :: b).length + 2) = c := by
      have hteq3 : a ++ '/' :: '*' :: (b ++ '*' :: '/' :: c)
          = (a ++ '/' :: '*' :: (b ++ ['*', '/'])) ++ c := by simp
      rw [hteq3]
      apply List.drop_left'
      simp only [List.length_append, List.length_cons, List.length_nil]
      omega
    rw [htake, hdrop2]
    exact removeBlockComments_of_no_star _ (by
      intro h
      rcases List.mem_append.mp h with h | h
      · exact hsa h
      · rcases List.mem_cons.mp h with h | h
        · exact absurd h (by decide)
        · exact hsc h) _
  · decide
  · decide

/-- C10 witness: the line-truncation law and the block-span deletion law,
each at a concrete text. -/
theorem C10_comment_removal_witness :
    (removeComments ((['x'] ++ '-' :: '-' :: ['y']) ++ '\n' :: ['z'])
      = ['x'] ++ '\n' :: removeComments ['z']) ∧
    removeComments (['x'] ++ '/' :: '*' :: ['y'] ++ '*' :: '/' :: ['z'])
      = ['x'] ++ ' ' :: ['z'] :=
  ⟨C10_comment_removal_inside_strings.1 ['x'] ['y'] ['z'] (by decide) (by decide)
    (by decide) (by decide) (by decide) (by decide),
   C10_comment_removal_inside_strings.2.1 ['x'] ['y'] ['z'] (by decide) (by decide)
    (by decide) (by decide) (by decide)⟩

theorem writeGroupsF_sum {rgr : Nat} (hrgr : 1 ≤ rgr) :
    ∀ fuel n, n ≤ fuel → (writeGroupsF rgr fuel n).sum = n := by
  intro fuel
  induction fuel with
  | zero =>
    intro n hn
    have : n = 0 := by omega
    subst this
    rfl
  | succ f ih =>
    intro n hn
    cases n with
    | zero => rfl
    | succ m =>
      simp only [writeGroupsF]
      rw [if_neg (by omega)]
      simp only [List.sum_cons]
      rw [ih (m + 1 - min rgr (m + 1)) (by omega)]
      omega

theorem writeGroups_sum {rgr : Nat} (hrgr : 1 ≤ rgr) (n : Nat) :
    (writeGroups rgr n).sum = n :=
  writeGroupsF_sum hrgr n n (le_refl n)

theorem writeGroupsF_le (rgr : Nat) :
    ∀ fuel n g, g ∈ writeGroupsF rgr fuel n → g ≤ rgr := by
  intro fuel
  induction fuel with
  | zero => intro n g hg; simp [writeGroupsF] at hg
  | succ f ih =>
    intro n g hg
    cases n with
    | zero => simp [writeGroupsF] at hg
    | succ m =>
      simp only [writeGroupsF] at hg
      by_cases h0 : rgr = 0
      · rw [if_pos h0] at hg; simp at hg
      · rw [if_neg h0] at hg
        rcases List.mem_cons.mp hg with h | h
        · subst h; exact min_le_left _ _
        · exact ih _ g h

theorem writeGroups_le (rgr n : Nat) : ∀ g ∈ writeGroups rgr n, g ≤ rgr :=
  fun g hg => writeGroupsF_le rgr n n g hg

theorem dropRowsFromBatches_sum : ∀ (n : Nat) (bs : List Nat),
    (dropRowsFromBatches n bs).sum = bs.sum - min n bs.sum := by
  intro n bs
  induction bs generalizing n with
  | nil => cases n <;> simp [dropRowsFromBatches]
  | cons b rest ih =>
    cases n with
    | zero => simp [dropRowsFromBatches]
    | succ k =>
      simp only [dropRowsFromBatches, List.sum_cons]
      by_cases hb : b ≤ k + 1
      · rw [if_pos hb, ih]
        omega
      · rw [if_neg hb]
        simp only [List.sum_cons]
        omega

theorem dropRowsFromBatches_pos : ∀ (n : Nat) (bs : List Nat),
    (∀ x ∈ bs, 1 ≤ x) → ∀ x ∈ dropRowsFromBatches n bs, 1 ≤ x := by
  intro n bs
  induction bs generalizing n with
  | nil => intro _ x hx; cases n <;> simp [dropRowsFromBatches] at hx
  | cons b rest ih =>
    intro hp x hx
    cases n with
    | zero => exact hp x hx
    | succ k =>
      simp only [dropRowsFromBatches] at hx
      by_cases hb : b ≤ k + 1
      · rw [if_pos hb] at hx
        exact ih _ (fun y hy => hp y (List.mem_cons_of_mem b hy)) x hx
      · rw [if_neg hb] at hx
        rcases List.mem_cons.mp hx with h | h
        · subst h; omega
        · exact hp x (List.mem_cons_of_mem b h)

theorem eq_nil_of_sum_zero_pos {bs : List Nat} (hs : bs.sum = 0)
    (hp : ∀ x ∈ bs, 1 ≤ x) : bs = [] := by
  cases bs with
  | nil => rfl
  | cons b rest =>
    have := hp b (List.mem_cons_self b rest)
    simp [List.sum_cons] at hs
    omega

theorem WLInv_close {rgr fr : Nat} {w : PWriter} (h : WLInv rgr fr w) :
    WLInv rgr fr (closeCurrentFile w) ∧
    (closeCurrentFile w).currentWriter = none ∧
    (closeCurrentFile w).bufferedRows = w.bufferedRows ∧
    (closeCurrentFile w).bufferedBatches = w.bufferedBatches ∧
    (closeCurrentFile w).totalRowCount = w.totalRowCount := by
  obtain ⟨h1, h2, h3, h4, h5, h6, h7⟩ := h
  unfold closeCurrentFile
  cases hw : w.currentWriter with
  | none =>
    rw [hw] at h5
    exact ⟨⟨h1, h2, h3, fun gs hg => h4 gs (hw ▸ hg), by simpa [hw] using h5, h6, h7⟩,
      hw, rfl, rfl, rfl⟩
  | some gs =>
    obtain ⟨hc1, hc2⟩ := h4 gs hw
    rw [hw] at h5
    refine ⟨⟨h1, h2, ?_, ?_, ?_, h6, h7⟩, rfl, rfl, rfl, rfl⟩
    · intro f hf
      simp only [List.mem_append, List.mem_singleton] at hf
      rcases hf with hf | hf
      · exact h3 f hf
      · subst hf
        exact ⟨hc1, hc2⟩
    · intro gs' hg
      simp at hg
    · have h5' : w.totalRowCount
          = (w.fileInfo.map FileRec.rows).sum + w.currentRowCount
            + w.bufferedRows := h5
      show w.totalRowCount
          = ((w.fileInfo ++ [({ rows := w.currentRowCount, groups := gs } : FileRec)]).map
                FileRec.rows).sum + 0
            + w.bufferedRows
      simp only [List.map_append, List.sum_append, List.map_cons, List.map_nil,
        List.sum_cons, List.sum_nil]
      omega

theorem WLInv_start {rgr fr : Nat} {w : PWriter} (h : WLInv rgr fr w) :
    WLInv rgr fr (startNewFile w) ∧
    (startNewFile w).currentWriter = some [] ∧
    (startNewFile w).currentRowCount = 0 ∧
    (startNewFile w).bufferedRows = w.bufferedRows ∧
    (startNewFile w).bufferedBatches = w.bufferedBatches ∧
    (startNewFile w).totalRowCount = w.totalRowCount := by
  obtain ⟨hc, hcw, hcb, hcbb, hct⟩ := WLInv_close h
  obtain ⟨h1, h2, h3, h4, h5, h6, h7⟩ := hc
  unfold startNewFile
  rw [hcw] at h5
  refine ⟨⟨h1, h2, h3, ?_, ?_, h6, h7⟩, rfl, rfl, hcb, hcbb, hct⟩
  · intro gs hg
    simp only [Option.some.injEq] at hg
    subst hg
    exact ⟨Nat.zero_le fr, by simp⟩
  · simpa using h5

theorem writeTableToFile_open {w : PWriter} {gs : List Nat}
    (hw : w.currentWriter = some gs) (n : Nat) :
    writeTableToFile w n =
      { w with currentWriter := some (gs ++ writeGroups w.rowGroupRows n)
               currentRowCount :=
                 w.currentRowCount + (writeGroups w.rowGroupRows n).sum } := by
  simp [writeTableToFile, hw]

theorem writeRowsToCurrentFile_skip {w : PWriter} {num : Nat}
    (h : (decide (num = 0) || w.bufferedBatches.isEmpty) = true) :
    writeRowsToCurrentFile w num = w := by
  simp [writeRowsToCurrentFile, h]

theorem writeRowsToCurrentFile_go {w : PWriter} {num : Nat}
    (hn : ¬ num = 0) (hb : ¬ w.bufferedBatches = [])
    (hm : ¬ min num w.bufferedRows = 0) :
    writeRowsToCurrentFile w num =
      { writeTableToFile w (min num w.bufferedRows) with
        bufferedBatches := dropRowsFromBatches num w.bufferedBatches
        bufferedRows := w.bufferedRows - min num w.bufferedRows } := by
  have hcond : (decide (num = 0) || w.bufferedBatches.isEmpty) = false := by
    simp [hn, hb]
  simp [writeRowsToCurrentFile, hcond, hm]

theorem WLInv_writeRows {rgr fr : Nat} {w : PWriter} {gs : List Nat}
    (h : WLInv rgr fr w) (hrgr : 1 ≤ rgr)
    (hw : w.currentWriter = some gs) (num : Nat)
    (hfit : w.currentRowCount + num ≤ fr) :
    WLInv rgr fr (writeRowsToCurrentFile w num) ∧
    (writeRowsToCurrentFile w num).bufferedRows
      = w.bufferedRows - min num w.bufferedRows ∧
    (writeRowsToCurrentFile w num).currentWriter.isSome = true ∧
    (writeRowsToCurrentFile w num).totalRowCount = w.totalRowCount := by
  obtain ⟨h1, h2, h3, h4, h5, h6, h7⟩ := h
  obtain ⟨hc1, hc2⟩ := h4 gs hw
  rw [hw] at h5
  have h5' : w.totalRowCount
      = (w.fileInfo.map FileRec.rows).sum + w.currentRowCount + w.bufferedRows := h5
  by_cases hnum0 : num = 0
  · rw [writeRowsToCurrentFile_skip (by simp [hnum0])]
    exact ⟨⟨h1, h2, h3, h4, by simp only [hw]; exact h5', h6, h7⟩, by omega,
      by simp [hw], rfl⟩
  · by_cases hbb : w.bufferedBatches = []
    · have hb0 : w.bufferedRows = 0 := by rw [hbb] at h6; simpa using h6.symm
      rw [writeRowsToCurrentFile_skip (by simp [hbb])]
      exact ⟨⟨h1, h2, h3, h4, by simp only [hw]; exact h5', h6, h7⟩, by omega,
        by simp [hw], rfl⟩
    · have hbpos : 1 ≤ w.bufferedRows := by
        cases hbc : w.bufferedBatches with
        | nil => exact absurd hbc hbb
        | cons x xs =>
          have hx := h7 x (hbc ▸ List.mem_cons_self x xs)
          rw [hbc] at h6
          simp only [List.sum_cons] at h6
          omega
      have hm : ¬ (min num w.bufferedRows = 0) := by omega
      rw [writeRowsToCurrentFile_go hnum0 hbb hm, writeTableToFile_open hw]
      have hsum : (writeGroups w.rowGroupRows (min num w.bufferedRows)).sum
          = min num w.bufferedRows := by
        rw [h1]; exact writeGroups_sum hrgr _
      refine ⟨⟨h1, h2, h3, ?_, ?_, ?_, ?_⟩, by simp, by simp, by simp⟩
      · intro gs' hg
        simp only [Option.some.injEq] at hg
        subst hg
        refine ⟨?_, ?_⟩
        · show w.currentRowCount + _ ≤ fr
          rw [hsum]
          omega
        · intro g hg
          rcases List.mem_append.mp hg with hgm | hgm
          · exact hc2 g hgm
          · rw [h1] at hgm
            exact writeGroups_le rgr _ g hgm
      · show w.totalRowCount
            = (w.fileInfo.map FileRec.rows).sum + (w.currentRowCount + _)
              + (w.bufferedRows - min num w.bufferedRows)
        rw [hsum]
        omega
      · show (dropRowsFromBatches num w.bufferedBatches).sum
            = w.bufferedRows - min num w.bufferedRows
        rw [dropRowsFromBatches_sum, h6]
      · exact fun b hb => dropRowsFromBatches_pos num w.bufferedBatches h7 b hb

/-- Unfolding lemma for one iteration of the flush loop. -/
theorem writeLoopF_succ_eq (fuel : Nat) (w : PWriter) :
    writeLoopF (fuel + 1) w =
      if w.bufferedRows = 0 then w
      else
        let w1 := if w.currentWriter.isNone then startNewFile w else w
        if w1.fileRows < w1.currentRowCount + w1.bufferedRows then
          let rowsNeeded := w1.fileRows - w1.currentRowCount
          let w2 :=
            if 0 < rowsNeeded && 0 < w1.bufferedRows then
              writeRowsToCurrentFile w1 rowsNeeded
            else w1
          writeLoopF fuel (closeCurrentFile w2)
        else writeAllBufferedRows w1 := rfl

/-- With an empty buffer the flush loop stops at once. -/
theorem writeLoopF_buf0 (fuel : Nat) {w : PWriter} (h : w.bufferedRows = 0) :
    writeLoopF (fuel + 1) w = w := by
  rw [writeLoopF_succ_eq]
  simp [h]

/-- With a closed writer, one iteration first opens a new file; the loop then
behaves as on the opened state with the same fuel. -/
theorem writeLoopF_closed (fuel : Nat) {w : PWriter}
    (hb : ¬ w.bufferedRows = 0) (hcw : w.currentWriter = none) :
    writeLoopF (fuel + 1) w = writeLoopF (fuel + 1) (startNewFile w) := by
  rw [writeLoopF_succ_eq, writeLoopF_succ_eq]
  have h1 : (startNewFile w).currentWriter = some [] := by
    simp [startNewFile]
  have h2 : (startNewFile w).bufferedRows = w.bufferedRows := by
    simp [startNewFile, closeCurrentFile]
    cases w.currentWriter <;> rfl
  simp [hb, hcw, h1, h2]

/-- The fill iteration: open writer, buffer overflows the file budget, room
left in the current file. -/
theorem writeLoopF_fill (fuel : Nat) {w : PWriter} {gs : List Nat}
    (hb : ¬ w.bufferedRows = 0) (hcw : w.currentWriter = some gs)
    (hlt : w.fileRows < w.currentRowCount + w.bufferedRows)
    (hpos : 0 < w.fileRows - w.currentRowCount) :
    writeLoopF (fuel + 1) w =
      writeLoopF fuel
        (closeCurrentFile
          (writeRowsToCurrentFile w (w.fileRows - w.currentRowCount))) := by
  have hbpos : 0 < w.bufferedRows := Nat.pos_of_ne_zero hb
  rw [writeLoopF_succ_eq]
  simp [hb, hcw, hlt, hpos, hbpos]

/-- The stall iteration: the current file is already full, so nothing is
written and it is closed. -/
theorem writeLoopF_stall (fuel : Nat) {w : PWriter} {gs : List Nat}
    (hb : ¬ w.bufferedRows = 0) (hcw : w.currentWriter = some gs)
    (hlt : w.fileRows < w.currentRowCount + w.bufferedRows)
    (hz : w.fileRows - w.currentRowCount = 0) :
    writeLoopF (fuel + 1) w = writeLoopF fuel (closeCurrentFile w) := by
  rw [writeLoopF_succ_eq]
  simp [hb, hcw, hlt, hz]

/-- The drain iteration: the whole buffer fits in the current file. -/
theorem writeLoopF_all (fuel : Nat) {w : PWriter} {gs : List Nat}
    (hb : ¬ w.bufferedRows = 0) (hcw : w.currentWriter = some gs)
    (hge : ¬ w.fileRows < w.currentRowCount + w.bufferedRows) :
    writeLoopF (fuel + 1) w = writeAllBufferedRows w := by
  rw [writeLoopF_succ_eq]
  simp [hb, hcw, hge]

/-- Flushing the whole buffer into the open file preserves the invariant,
empties the buffer, and keeps the running total, provided the buffer fits
into the remaining file budget. -/
theorem WLInv_writeAll {rgr fr : Nat} {w : PWriter} {gs : List Nat}
    (h : WLInv rgr fr w) (hrgr : 1 ≤ rgr)
    (hw : w.currentWriter = some gs)
    (hfit : w.currentRowCount + w.bufferedRows ≤ fr) :
    WLInv rgr fr (writeAllBufferedRows w) ∧
    (writeAllBufferedRows w).bufferedRows = 0 ∧
    (writeAllBufferedRows w).bufferedBatches = [] ∧
    (writeAllBufferedRows w).totalRowCount = w.totalRowCount := by
  obtain ⟨h1, h2, h3, h4, h5, h6, h7⟩ := h
  obtain ⟨hc1, hc2⟩ := h4 gs hw
  rw [hw] at h5
  have h5' : w.totalRowCount
      = (w.fileInfo.map FileRec.rows).sum + w.currentRowCount + w.bufferedRows := h5
  by_cases hbb : w.bufferedBatches = []
  · have hb0 : w.bufferedRows = 0 := by rw [hbb] at h6; simpa using h6.symm
    have heq : writeAllBufferedRows w = w := by simp [writeAllBufferedRows, hbb]
    rw [heq]
    exact ⟨⟨h1, h2, h3, h4, by simp only [hw]; exact h5', h6, h7⟩, hb0, hbb, rfl⟩
  · have heq : writeAllBufferedRows w =
        { writeTableToFile w w.bufferedRows with
          bufferedBatches := [], bufferedRows := 0 } := by
      simp [writeAllBufferedRows, hbb]
    rw [heq, writeTableToFile_open hw]
    have hsum : (writeGroups w.rowGroupRows w.bufferedRows).sum = w.bufferedRows := by
      rw [h1]; exact writeGroups_sum hrgr _
    refine ⟨⟨h1, h2, h3, ?_, ?_, by simp, by simp⟩, by simp, by simp, by simp⟩
    · intro gs' hg
      simp only [Option.some.injEq] at hg
      subst hg
      refine ⟨?_, ?_⟩
      · show w.currentRowCount + _ ≤ fr
        rw [hsum]
        omega
      · intro g hgm
        rcases List.mem_append.mp hgm with hgm | hgm
        · exact hc2 g hgm
        · rw [h1] at hgm
          exact writeGroups_le rgr _ g hgm
    · show w.totalRowCount
          = (w.fileInfo.map FileRec.rows).sum + (w.currentRowCount + _) + 0
      rw [hsum]
      omega

/-- The flush loop preserves the invariant and the running total, for any
fuel. -/
theorem WLInv_writeLoopF {rgr fr : Nat} (hrgr : 1 ≤ rgr) :
    ∀ (fuel : Nat) (w : PWriter), WLInv rgr fr w →
      WLInv rgr fr (writeLoopF fuel w) ∧
      (writeLoopF fuel w).totalRowCount = w.totalRowCount := by
  intro fuel
  induction fuel with
  | zero => exact fun w h => ⟨h, rfl⟩
  | succ fuel ih =>
    intro w h
    have key : ∀ (w' : PWriter) (gs' : List Nat), WLInv rgr fr w' →
        w'.currentWriter = some gs' → ¬ w'.bufferedRows = 0 →
        WLInv rgr fr (writeLoopF (fuel + 1) w') ∧
        (writeLoopF (fuel + 1) w').totalRowCount = w'.totalRowCount := by
      intro w' gs' h' hcw' hb'
      have hcur : w'.currentRowCount ≤ fr := (h'.2.2.2.1 gs' hcw').1
      have hfr_eq : w'.fileRows = fr := h'.2.1
      by_cases hlt : w'.fileRows < w'.currentRowCount + w'.bufferedRows
      · by_cases hpos : 0 < w'.fileRows - w'.currentRowCount
        · rw [writeLoopF_fill fuel hb' hcw' hlt hpos]
          have hfit : w'.currentRowCount + (w'.fileRows - w'.currentRowCount) ≤ fr := by
            omega
          obtain ⟨hW, hbuf, hsome, htot⟩ := WLInv_writeRows h' hrgr hcw' _ hfit
          obtain ⟨hWc, hnone, hcb, hcbb, htc⟩ := WLInv_close hW
          obtain ⟨ihW, ihtot⟩ := ih _ hWc
          exact ⟨ihW, by rw [ihtot, htc, htot]⟩
        · rw [writeLoopF_stall fuel hb' hcw' hlt (by omega)]
          obtain ⟨hWc, hnone, hcb, hcbb, htc⟩ := WLInv_close h'
          obtain ⟨ihW, ihtot⟩ := ih _ hWc
          exact ⟨ihW, by rw [ihtot, htc]⟩
      · rw [writeLoopF_all fuel hb' hcw' hlt]
        have hfit : w'.currentRowCount + w'.bufferedRows ≤ fr := by omega
        obtain ⟨hW, hz, hnil, htot⟩ := WLInv_writeAll h' hrgr hcw' hfit
        exact ⟨hW, htot⟩
    by_cases hb0 : w.bufferedRows = 0
    · rw [writeLoopF_buf0 fuel hb0]
      exact ⟨h, rfl⟩
    · cases hcw : w.currentWriter with
      | some gs => exact key w gs h hcw hb0
      | none =>
        rw [writeLoopF_closed fuel hb0 hcw]
        obtain ⟨hW, hsw, hcr0, hsb, hsbb, hst⟩ := WLInv_start h
        obtain ⟨kW, ktot⟩ := key (startNewFile w) [] hW hsw (by rw [hsb]; exact hb0)
        exact ⟨kW, by rw [ktot, hst]⟩

/-- With `file_rows ≥ 1` the flush loop of `write_batch` terminates with an
empty buffer whenever its fuel is at least `2·buffered + 2` (one spare unit
when the writer is already closed): every two iterations either drain the
buffer entirely or write at least one row out of it. -/
theorem writeLoopF_drain {rgr fr : Nat} (hrgr : 1 ≤ rgr) (hfr : 1 ≤ fr) :
    ∀ (fuel : Nat) (w : PWriter), WLInv rgr fr w →
      2 * w.bufferedRows + (if w.currentWriter.isSome then 2 else 1) ≤ fuel →
      (writeLoopF fuel w).bufferedRows = 0 := by
  intro fuel
  induction fuel with
  | zero =>
    intro w h hf
    exfalso
    split at hf <;> omega
  | succ fuel ih =>
    intro w h hf
    by_cases hb0 : w.bufferedRows = 0
    · rw [writeLoopF_buf0 fuel hb0]
      exact hb0
    · have key : ∀ (w' : PWriter) (gs' : List Nat), WLInv rgr fr w' →
          w'.currentWriter = some gs' →
          w'.bufferedRows = w.bufferedRows →
          (2 * w.bufferedRows + 2 ≤ fuel + 1 ∨
            (2 * w.bufferedRows + 1 ≤ fuel + 1 ∧ w'.currentRowCount = 0)) →
          (writeLoopF (fuel + 1) w').bufferedRows = 0 := by
        intro w' gs' h' hcw' hbeq hor
        have hb' : ¬ w'.bufferedRows = 0 := by rw [hbeq]; exact hb0
        have hb1 : 1 ≤ w'.bufferedRows := Nat.one_le_iff_ne_zero.mpr hb'
        have hcur : w'.currentRowCount ≤ fr := (h'.2.2.2.1 gs' hcw').1
        have hfr_eq : w'.fileRows = fr := h'.2.1
        by_cases hlt : w'.fileRows < w'.currentRowCount + w'.bufferedRows
        · by_cases hpos : 0 < w'.fileRows - w'.currentRowCount
          · rw [writeLoopF_fill fuel hb' hcw' hlt hpos]
            have hfit : w'.currentRowCount + (w'.fileRows - w'.currentRowCount) ≤ fr := by
              omega
            obtain ⟨hW, hbuf, hsome, htot⟩ := WLInv_writeRows h' hrgr hcw' _ hfit
            obtain ⟨hWc, hnone, hcb, hcbb, htc⟩ := WLInv_close hW
            apply ih _ hWc
            rw [hcb, hbuf, hnone]
            have hmin : 1 ≤ min (w'.fileRows - w'.currentRowCount) w'.bufferedRows := by
              omega
            simp only [Option.isSome_none, Bool.false_eq_true, if_false]
            omega
          · rw [writeLoopF_stall fuel hb' hcw' hlt (by omega)]
            obtain ⟨hWc, hnone, hcb, hcbb, htc⟩ := WLInv_close h'
            apply ih _ hWc
            rw [hcb, hnone]
            simp only [Option.isSome_none, Bool.false_eq_true, if_false]
            have hge : w'.fileRows ≤ w'.currentRowCount := by omega
            rcases hor with h2b | ⟨h2b, hcz⟩
            · omega
            · omega
        · rw [writeLoopF_all fuel hb' hcw' hlt]
          have hfit : w'.currentRowCount + w'.bufferedRows ≤ fr := by omega
          obtain ⟨hW, hz, hnil, htot⟩ := WLInv_writeAll h' hrgr hcw' hfit
          exact hz
      cases hcw : w.currentWriter with
      | some gs =>
        apply key w gs h hcw rfl
        left
        rw [hcw] at hf
        simpa using hf
      | none =>
        rw [writeLoopF_closed fuel hb0 hcw]
        obtain ⟨hW, hsw, hcr0, hsb, hsbb, hst⟩ := WLInv_start h
        apply key (startNewFile w) [] hW hsw hsb
        right
        refine ⟨?_, hcr0⟩
        rw [hcw] at hf
        simpa using hf

/-- Buffering one nonempty batch and running the flush loop with the fuel
`write_batch` supplies preserves the invariant, leaves the buffer empty, and
adds the batch's rows to the running total. -/
theorem WInv_buffer_loop {rgr fr : Nat} (hrgr : 1 ≤ rgr) (hfr : 1 ≤ fr)
    {w : PWriter} (h : WLInv rgr fr w) (n : Nat) (hn : 1 ≤ n)
    (s' : Option Schema) :
    WInv rgr fr (writeLoopF (2 * (w.bufferedRows + n) + 2)
      { w with schema := s',
               bufferedBatches := w.bufferedBatches ++ [n],
               bufferedRows := w.bufferedRows + n,
               totalRowCount := w.totalRowCount + n }) ∧
    (writeLoopF (2 * (w.bufferedRows + n) + 2)
      { w with schema := s',
               bufferedBatches := w.bufferedBatches ++ [n],
               bufferedRows := w.bufferedRows + n,
               totalRowCount := w.totalRowCount + n }).totalRowCount
      = w.totalRowCount + n := by
  obtain ⟨h1, h2, h3, h4, h5, h6, h7⟩ := h
  have hWb : WLInv rgr fr
      { w with schema := s',
               bufferedBatches := w.bufferedBatches ++ [n],
               bufferedRows := w.bufferedRows + n,
               totalRowCount := w.totalRowCount + n } := by
    refine ⟨h1, h2, h3, h4, ?_, ?_, ?_⟩
    · show w.totalRowCount + n
          = (w.fileInfo.map FileRec.rows).sum +
            (match w.currentWriter with
             | some _ => w.currentRowCount
             | none => 0) +
            (w.bufferedRows + n)
      cases hcw : w.currentWriter <;> simp only [hcw] at h5 ⊢ <;> omega
    · show (w.bufferedBatches ++ [n]).sum = w.bufferedRows + n
      rw [List.sum_append, h6]
      simp
    · show ∀ x ∈ w.bufferedBatches ++ [n], 1 ≤ x
      intro x hx
      rcases List.mem_append.mp hx with hx | hx
      · exact h7 x hx
      · simp at hx
        omega
  obtain ⟨hWl, htotl⟩ := WLInv_writeLoopF hrgr (2 * (w.bufferedRows + n) + 2) _ hWb
  have hdrain := writeLoopF_drain hrgr hfr (2 * (w.bufferedRows + n) + 2) _ hWb
    (by show 2 * (w.bufferedRows + n) + (if w.currentWriter.isSome then 2 else 1)
          ≤ 2 * (w.bufferedRows + n) + 2
        split <;> omega)
  have hnil := eq_nil_of_sum_zero_pos
    (by rw [hWl.2.2.2.2.2.1]; exact hdrain) hWl.2.2.2.2.2.2
  exact ⟨⟨hWl, hdrain, hnil⟩, htotl⟩

/-- One `write_batch` call preserves the between-calls invariant and adds the
batch's rows to the running total. -/
theorem WInv_write_batch {rgr fr : Nat} (hrgr : 1 ≤ rgr) (hfr : 1 ≤ fr)
    {w : PWriter} (h : WInv rgr fr w) (b : PqBatch) :
    WInv rgr fr (write_batch w b) ∧
    (write_batch w b).totalRowCount = w.totalRowCount + b.numRows := by
  obtain ⟨hL, hb0, hbb⟩ := h
  by_cases hn : b.numRows = 0
  · have heq : write_batch w b = w := by simp [write_batch, hn]
    rw [heq]
    exact ⟨⟨hL, hb0, hbb⟩, by omega⟩
  · have hn1 : 1 ≤ b.numRows := Nat.one_le_iff_ne_zero.mpr hn
    cases hs : w.schema with
    | some s =>
      have heq : write_batch w b
          = writeLoopF (2 * (w.bufferedRows + b.numRows) + 2)
              { w with schema := w.schema,
                       bufferedBatches := w.bufferedBatches ++ [b.numRows],
                       bufferedRows := w.bufferedRows + b.numRows,
                       totalRowCount := w.totalRowCount + b.numRows } := by
        simp [write_batch, hn, hs]
      rw [heq]
      exact WInv_buffer_loop hrgr hfr hL b.numRows hn1 w.schema
    | none =>
      have heq : write_batch w b
          = writeLoopF (2 * (w.bufferedRows + b.numRows) + 2)
              { w with schema := some b.schema,
                       bufferedBatches := w.bufferedBatches ++ [b.numRows],
                       bufferedRows := w.bufferedRows + b.numRows,
                       totalRowCount := w.totalRowCount + b.numRows } := by
        simp [write_batch, hn, hs]
      rw [heq]
      exact WInv_buffer_loop hrgr hfr hL b.numRows hn1 (some b.schema)

/-- The freshly constructed writer satisfies the between-calls invariant. -/
theorem WInv_init (rgr fr : Nat) (s : Option Schema) :
    WInv rgr fr (initWriter rgr fr s) := by
  refine ⟨⟨rfl, rfl, ?_, ?_, rfl, rfl, ?_⟩, rfl, rfl⟩
  · intro f hf
    simp [initWriter] at hf
  · intro gs hg
    simp [initWriter] at hg
  · intro x hx
    simp [initWriter] at hx

/-- Any sequence of `write_batch` calls preserves the between-calls
invariant. -/
theorem WInv_foldl {rgr fr : Nat} (hrgr : 1 ≤ rgr) (hfr : 1 ≤ fr) :
    ∀ (bs : List PqBatch) (w : PWriter), WInv rgr fr w →
      WInv rgr fr (bs.foldl write_batch w) := by
  intro bs
  induction bs with
  | nil => exact fun w h => h
  | cons b rest ih =>
    intro w h
    exact ih _ (WInv_write_batch hrgr hfr h b).1

/-- With the buffer empty (as the between-calls invariant guarantees),
`finalize` skips the flush and just closes the open file. -/
theorem finalize_close {rgr fr : Nat} {w : PWriter} (h : WInv rgr fr w) :
    finalize w = (closeCurrentFile w, generateManifest (closeCurrentFile w)) := by
  obtain ⟨hL, hb0, hbb⟩ := h
  simp [finalize, hbb]

/-- C7: for every sequence of `write_batch` calls followed by `finalize` on a
`ParquetWriter` configured with positive limits `file_rows` and
`row_group_rows`, every shard file recorded in the manifest contains at most
`file_rows` rows, and every row group within every shard file contains at
most `row_group_rows` rows. -/
theorem C7_shard_budgets (rgr fr : Nat) (schema : Option Schema)
    (batches : List PqBatch) (hrgr : 1 ≤ rgr) (hfr : 1 ≤ fr) :
    ∀ f ∈ (runWriter rgr fr schema batches).2.files,
      f.rows ≤ fr ∧ ∀ g ∈ f.groups, g ≤ rgr := by
  have hinv := WInv_foldl hrgr hfr batches _ (WInv_init rgr fr schema)
  have heq := finalize_close hinv
  obtain ⟨⟨_, _, h3c, _, _, _, _⟩, _, _, _, _⟩ := WLInv_close hinv.1
  intro f hf
  apply h3c f
  have hrw : (runWriter rgr fr schema batches).2
      = generateManifest (closeCurrentFile
          (batches.foldl write_batch (initWriter rgr fr schema))) := by
    show (finalize (batches.foldl write_batch (initWriter rgr fr schema))).2 = _
    rw [heq]
  rw [hrw] at hf
  exact hf

/-- C7 witness: the budget law applied at `row_group_rows = 2`,
`file_rows = 5` and the batch sizes 7 and 4, a run that splits the first
batch across two shard files and fills row groups of sizes `[2, 2, 1]`. -/
theorem C7_shard_budgets_witness :
    (runWriter 2 5 none [⟨7, []⟩, ⟨4, []⟩]).2.files
        = [⟨5, [2, 2, 1]⟩, ⟨5, [2, 2, 1]⟩, ⟨1, [1]⟩] ∧
    ∀ f ∈ (runWriter 2 5 none [⟨7, []⟩, ⟨4, []⟩]).2.files,
      f.rows ≤ 5 ∧ ∀ g ∈ f.groups, g ≤ 2 :=
  ⟨by decide, C7_shard_budgets 2 5 none [⟨7, []⟩, ⟨4, []⟩] (by decide) (by decide)⟩

/-- C8 amended: with positive limits, the manifest produced by `finalize`
always satisfies `total_rows = Σ files[*].rows`; when no batch was ever
written the manifest has `total_rows = 0` and an empty `files` list, but its
`schema.fields` is the constructor-supplied schema's field list when one was
given (empty only when none was). -/
theorem C8_manifest_amended (rgr fr : Nat) (schema : Option Schema)
    (batches : List PqBatch) (hrgr : 1 ≤ rgr) (hfr : 1 ≤ fr) :
    (runWriter rgr fr schema batches).2.totalRows
      = ((runWriter rgr fr schema batches).2.files.map FileRec.rows).sum ∧
    (batches = [] →
      (runWriter rgr fr schema batches).2
        = { files := [], totalRows := 0, schemaFields := schema.getD [] }) := by
  constructor
  · have hinv := WInv_foldl hrgr hfr batches _ (WInv_init rgr fr schema)
    have heq := finalize_close hinv
    obtain ⟨hL, hb0, hbb⟩ := hinv
    obtain ⟨⟨_, _, _, _, h5, _, _⟩, hnone, hcb, _, _⟩ := WLInv_close hL
    have hrw : (runWriter rgr fr schema batches).2
        = generateManifest (closeCurrentFile
            (batches.foldl write_batch (initWriter rgr fr schema))) := by
      show (finalize (batches.foldl write_batch (initWriter rgr fr schema))).2 = _
      rw [heq]
    rw [hrw]
    show (closeCurrentFile
          (batches.foldl write_batch (initWriter rgr fr schema))).totalRowCount
        = ((closeCurrentFile
            (batches.foldl write_batch (initWriter rgr fr schema))).fileInfo.map
              FileRec.rows).sum
    simp only [hnone] at h5
    rw [hcb, hb0] at h5
    omega
  · intro hbe
    subst hbe
    show (finalize (initWriter rgr fr schema)).2 = _
    cases schema <;> rfl

/-- C8 witness: the amended manifest law at positive limits, a
constructor-supplied one-field schema, and no batches: the totals balance
and the manifest carries the supplied schema's field despite the empty
run. -/
theorem C8_manifest_witness :
    (runWriter 3 4 (some [([ 'i', 'd' ], [ 'i', 'n', 't' ])]) []).2.totalRows
      = ((runWriter 3 4 (some [([ 'i', 'd' ], [ 'i', 'n', 't' ])]) []).2.files.map
          FileRec.rows).sum ∧
    (runWriter 3 4 (some [([ 'i', 'd' ], [ 'i', 'n', 't' ])]) []).2
      = { files := [], totalRows := 0,
          schemaFields := [([ 'i', 'd' ], [ 'i', 'n', 't' ])] } := by
  have h := C8_manifest_amended 3 4 (some [([ 'i', 'd' ], [ 'i', 'n', 't' ])]) []
    (by decide) (by decide)
  exact ⟨h.1, h.2 rfl⟩
